import Mathlib

/-!
# go-retry: the retry executor of `retry.go`

A shallow embedding of `Retry` (retry.go, lines 25-69) and theorems about it.

* The operation `fn func() (interface{}, error)` is a closure whose result may
  change from call to call; it is embedded as a transition `σ → Outcome α ε × σ`
  on the state `σ` it closes over.
* `count` is a Go `int`: 32 or 64 bits wide, wrapping on overflow.
* The `for` loop has no bound of its own, so the embedding takes a fuel argument
  (an upper bound on the number of loop iterations) and returns `none` when the
  fuel runs out before a `return` is reached.
* The observable effects (`fn()`, `r.CalculateDelay(..)`, `r.Log(..)`,
  `time.Sleep(..)`) are recorded, in program order, in a trace of events.
-/

namespace GoRetry

/-! ## Machine integers -/

/-- Width of the Go type `int` (and `uint`) on the target platform. -/
inductive IntSize where
  | bits32
  | bits64
  deriving DecidableEq

/-- Number of bits of `int`. -/
def IntSize.bits : IntSize → Nat
  | .bits32 => 32
  | .bits64 => 64

/-- Smallest value above the range of `int`: `2^(bits-1)`. -/
def IntSize.half (sz : IntSize) : Int := 2 ^ (sz.bits - 1)

/-- Number of values of `int`: `2^bits`. -/
def IntSize.modulus (sz : IntSize) : Int := 2 ^ sz.bits

/-- Values of type `int`: `-2^(bits-1) ≤ x < 2^(bits-1)`. -/
def IsInt (sz : IntSize) (x : Int) : Prop := -sz.half ≤ x ∧ x < sz.half

instance (sz : IntSize) (x : Int) : Decidable (IsInt sz x) := by
  unfold IsInt; infer_instance

/-- Two's complement wrap-around of a mathematical integer into `int`, as done by
Go's integer arithmetic (`count++`). -/
def wrapInt (sz : IntSize) (x : Int) : Int :=
  (x + sz.half) % sz.modulus - sz.half

/-- The conversion `uint(count)` of an `int` to the unsigned type of the same width. -/
def toUint (sz : IntSize) (x : Int) : Nat := (x % sz.modulus).toNat

/-! ## Data model -/

/-- A `time.Duration`: a number of nanoseconds. -/
abbrev Duration := Int

/-- The constant `DefaultMaxRetries` (retry.go, line 9). -/
def DefaultMaxRetries : Int := 10

/-- The constant `DefaultBaseDelay = time.Millisecond` (retry.go, line 10), in nanoseconds. -/
def DefaultBaseDelay : Duration := 1000000

/-- The constant `DefaultMaxDelay = time.Minute` (retry.go, line 11), in nanoseconds. -/
def DefaultMaxDelay : Duration := 60000000000

/-- The constant `Infinity` (retry.go, line 12). -/
def Infinity : Int := -1

/-- The type `BackoffFunc` of `r.CalculateDelay`, called at retry.go line 61 with a `uint`
and two durations. -/
abbrev BackoffFunc := Nat → Duration → Duration → Duration

/-- Go's `error` interface, as far as `Retry` uses it: the method `Error() string`. -/
class GoError (ε : Type) where
  /-- The method `Error()`. -/
  Error : ε → String

/-- An error whose only content is its message. -/
instance : GoError String := ⟨id⟩

/-- The struct `Retrier` (retry.go, lines 16-23). The field `Log` carries no data in the
embedding: every call of `r.Log` is recorded as an `Event.log` in the trace, whatever sink
is installed. -/
structure Retrier (ε : Type) where
  MaxRetries : Int
  BaseDelay : Duration
  MaxDelay : Duration
  ShouldRetry : ε → Bool
  CalculateDelay : BackoffFunc

/-- The variadic argument passed to `r.Log` after the format string. -/
inductive LogArg where
  | int (n : Int)
  | duration (d : Duration)
  deriving DecidableEq

/-- Observable effects of one call of the wrapped callable, in program order. -/
inductive Event where
  /-- One invocation `fn()` (line 47). -/
  | call
  /-- One call `r.CalculateDelay(attempt, base, max)` (line 61). -/
  | calculateDelay (attempt : Nat) (base max : Duration)
  /-- One call `r.Log(format, arg)` (lines 44 and 63). -/
  | log (format : String) (arg : LogArg)
  /-- One call `time.Sleep(d)` (line 65). -/
  | sleep (d : Duration)
  deriving DecidableEq

/-- What one invocation `fn()` returns: an `interface{}` (`none` is `nil`) and an `error`
(`none` is `nil`). -/
structure Outcome (α ε : Type) where
  value : Option α
  err : Option ε
  deriving DecidableEq

/-- The operation `fn`: a transition on the state its closure captures. -/
abbrev Operation (σ α ε : Type) := σ → Outcome α ε × σ

/-- What one call of the wrapped callable returns and does: the returned `interface{}`, the
returned `error` (`none` is `nil`, `some m` is the error made by `fmt.Errorf` with message
`m`), the state of the operation afterwards, and the effects in order. -/
structure Result (σ α : Type) where
  value : Option α
  err : Option String
  state : σ
  trace : List Event
  deriving DecidableEq

/-! ## The executor -/

/-- The message `fmt.Errorf("Retrier aborted due to user supplied ShouldRetry func.
Cause: %s", err.Error())` (line 54). -/
def abortMessage (cause : String) : String :=
  "Retrier aborted due to user supplied ShouldRetry func. Cause: " ++ cause

/-- The message `fmt.Errorf("Retrier exceeded max retry count of %d. Cause: %s",
r.MaxRetries, err.Error())` (line 58). -/
def limitMessage (maxRetries : Int) (cause : String) : String :=
  "Retrier exceeded max retry count of " ++ toString maxRetries ++ ". Cause: " ++ cause

/-- Effects of lines 43-47: the `Retrying attempt` log when `count > 0`, then `fn()`. -/
def attemptEvents (count : Int) : List Event :=
  (if count > 0 then [Event.log "Retrying attempt %d" (.int count)] else []) ++ [Event.call]

/-- Effects of lines 61-65: the delay computation, the `Will retry in` log, the sleep. -/
def backoffEvents {ε : Type} (sz : IntSize) (r : Retrier ε) (count : Int) : List Event :=
  let d := r.CalculateDelay (toUint sz count) r.BaseDelay r.MaxDelay
  [Event.calculateDelay (toUint sz count) r.BaseDelay r.MaxDelay,
   Event.log "Will retry in %s" (.duration d),
   Event.sleep d]

/-- Puts the effects of earlier loop iterations in front of a result's trace. -/
def Result.after {σ α : Type} (earlier : List Event) (res : Result σ α) : Result σ α :=
  { res with trace := earlier ++ res.trace }

/-- The loop `for { ... }` of the wrapped callable (lines 42-67), started with the operation
in state `s` and the local variable `count` at the given value; `fuel` bounds the number of
iterations. -/
def retryLoop {σ α ε : Type} [GoError ε] (sz : IntSize) (r : Retrier ε)
    (fn : Operation σ α ε) : Nat → σ → Int → Option (Result σ α)
  | 0, _, _ => none
  | fuel + 1, s, count =>
    let out := fn s
    match out.1.err with
    | none => some ⟨out.1.value, none, out.2, attemptEvents count⟩
    | some err =>
      if !r.ShouldRetry err then
        some ⟨none, some (abortMessage (GoError.Error err)), out.2, attemptEvents count⟩
      else if count = r.MaxRetries then
        some ⟨none, some (limitMessage r.MaxRetries (GoError.Error err)), out.2,
          attemptEvents count⟩
      else
        (retryLoop sz r fn fuel out.2 (wrapInt sz (count + 1))).map
          (Result.after (attemptEvents count ++ backoffEvents sz r count))

/-- The callable returned by `Retry` (lines 39-68) for the configuration `r`:
`var count int`, then the loop. -/
def callable {σ α ε : Type} [GoError ε] (sz : IntSize) (r : Retrier ε)
    (fn : Operation σ α ε) (fuel : Nat) (s : σ) : Option (Result σ α) :=
  retryLoop sz r fn fuel s 0

/-- The configuration `Retry` starts from (lines 26-33). The function `calculateDelayBinary`
named on line 31 is not part of retry.go and is taken as a parameter. -/
def defaultRetrier {ε : Type} (calculateDelayBinary : BackoffFunc) : Retrier ε :=
  { BaseDelay := DefaultBaseDelay
    MaxDelay := DefaultMaxDelay
    MaxRetries := DefaultMaxRetries
    ShouldRetry := fun _ => true
    CalculateDelay := calculateDelayBinary }

/-- The loop `for _, o := range options { o(&r) }` (lines 35-37). -/
def applyOptions {ε : Type} (r : Retrier ε) (options : List (Retrier ε → Retrier ε)) :
    Retrier ε :=
  options.foldl (fun acc o => o acc) r

/-- The function `Retry` (lines 25-69). -/
def Retry {σ α ε : Type} [GoError ε] (sz : IntSize) (calculateDelayBinary : BackoffFunc)
    (fn : Operation σ α ε) (options : List (Retrier ε → Retrier ε)) :
    Nat → σ → Option (Result σ α) :=
  callable sz (applyOptions (defaultRetrier calculateDelayBinary) options) fn

/-! ## Observations on operations and traces -/

/-- State of the operation after `i` invocations, starting from `s`. -/
def stateAfter {σ α ε : Type} (fn : Operation σ α ε) (s : σ) : Nat → σ
  | 0 => s
  | i + 1 => stateAfter fn (fn s).2 i

/-- What the invocation number `i` (counting from 0) returns when the operation starts in
state `s`. -/
def outcomeAt {σ α ε : Type} (fn : Operation σ α ε) (s : σ) (i : Nat) : Outcome α ε :=
  (fn (stateAfter fn s i)).1

/-- Number of invocations of the operation in a trace. -/
def invocations (t : List Event) : Nat := t.count Event.call

/-- The durations slept, in order. -/
def sleeps : List Event → List Duration
  | [] => []
  | Event.sleep d :: t => d :: sleeps t
  | _ :: t => sleeps t

/-- The arguments of the calls of `r.CalculateDelay`, in order. -/
def delayCalls : List Event → List (Nat × Duration × Duration)
  | [] => []
  | Event.calculateDelay a b m :: t => (a, b, m) :: delayCalls t
  | _ :: t => delayCalls t

/-- The messages given to `r.Log`, in order. -/
def logged : List Event → List (String × LogArg)
  | [] => []
  | Event.log f a :: t => (f, a) :: logged t
  | _ :: t => logged t

/-- Whether an `error` is `nil` is decidable, whatever the type of errors. -/
instance decideNil {ε : Type} (o : Option ε) : Decidable (o = none) :=
  match o with
  | none => isTrue rfl
  | some _ => isFalse (fun h => Option.noConfusion h)

/-- The operation fails on its invocations `0 .. k-1` and succeeds on invocation `k`. -/
def FailsThenSucceeds {σ α ε : Type} (fn : Operation σ α ε) (s : σ) (k : Nat) : Prop :=
  (∀ i, i < k → (outcomeAt fn s i).err ≠ none) ∧ (outcomeAt fn s k).err = none

instance {σ α ε : Type} (fn : Operation σ α ε) (s : σ) (k : Nat) :
    Decidable (FailsThenSucceeds fn s k) :=
  inferInstanceAs (Decidable
    ((∀ i, i < k → (outcomeAt fn s i).err ≠ none) ∧ (outcomeAt fn s k).err = none))

/-- The operation fails on every invocation. -/
def AlwaysFails {σ α ε : Type} (fn : Operation σ α ε) (s : σ) : Prop :=
  ∀ i, (outcomeAt fn s i).err ≠ none

/-- Effects of the loop iterations `a, a+1, .., a+j-1`, each of which ends in a retry. -/
def retryEvents {ε : Type} (sz : IntSize) (r : Retrier ε) (a : Nat) : Nat → List Event
  | 0 => []
  | j + 1 =>
    attemptEvents (wrapInt sz a) ++ backoffEvents sz r (wrapInt sz a)
      ++ retryEvents sz r (a + 1) j

/-- The loop iterations `0 .. j-1` each end in a retry: invocation `i` fails with an error
that `ShouldRetry` accepts while `count`, then `wrapInt sz i`, differs from `MaxRetries`. -/
def RetriesThrough {σ α ε : Type} (sz : IntSize) (r : Retrier ε) (fn : Operation σ α ε)
    (s : σ) (j : Nat) : Prop :=
  ∀ i, i < j → ∃ e, (outcomeAt fn s i).err = some e ∧ r.ShouldRetry e = true ∧
    wrapInt sz i ≠ r.MaxRetries

/-- Decides whether an optional error is present and has a decidable property. -/
def decideOnError {ε : Type} (o : Option ε) (P : ε → Prop) [DecidablePred P] :
    Decidable (∃ e, o = some e ∧ P e) :=
  match o with
  | none => isFalse (by simp)
  | some e => decidable_of_iff (P e) (by simp)

instance {σ α ε : Type} (sz : IntSize) (r : Retrier ε) (fn : Operation σ α ε)
    (s : σ) (j : Nat) : Decidable (RetriesThrough sz r fn s j) :=
  have : ∀ i, Decidable (∃ e, (outcomeAt fn s i).err = some e ∧ r.ShouldRetry e = true ∧
      wrapInt sz i ≠ r.MaxRetries) :=
    fun i => decideOnError (outcomeAt fn s i).err
      (fun e => r.ShouldRetry e = true ∧ wrapInt sz i ≠ r.MaxRetries)
  inferInstanceAs (Decidable (∀ i, i < j → ∃ e, (outcomeAt fn s i).err = some e ∧
    r.ShouldRetry e = true ∧ wrapInt sz i ≠ r.MaxRetries))

/-! ## Test operations -/

/-- An operation that counts its invocations and fails, with error `"boom"`, on the first
`k` of them; invocation `i ≥ k` succeeds with value `i`. -/
def failing (k : Nat) : Operation Nat Nat String :=
  fun i => (if i < k then ⟨none, some "boom"⟩ else ⟨some i, none⟩, i + 1)

/-- An operation that fails on every invocation, with a value next to its error; the
message of invocation `i` is `"e"` followed by `i`. -/
def alwaysFailing : Operation Nat Nat String :=
  fun i => (⟨some i, some ("e" ++ toString i)⟩, i + 1)

/-- The configuration `sampleRetrier`, below, with a predicate that rejects the errors
whose message is `bad` and accepts all others. -/
def vetoing (bad : String) (maxRetries : Int) : Retrier String :=
  { MaxRetries := maxRetries
    BaseDelay := 10000000
    MaxDelay := 1000000000
    ShouldRetry := fun e => e != bad
    CalculateDelay := fun a b m => min (b * 2 ^ a) m }

/-- A configuration with the given limit, base delay 10ms, maximal delay 1s, a predicate
that accepts every error, and the doubling backoff `min (base * 2^attempt) max`. -/
def sampleRetrier (maxRetries : Int) : Retrier String :=
  { MaxRetries := maxRetries
    BaseDelay := 10000000
    MaxDelay := 1000000000
    ShouldRetry := fun _ => true
    CalculateDelay := fun a b m => min (b * 2 ^ a) m }

/-! ## Options and the default backoff -/

/-- An option `func(r *Retrier) { r.MaxRetries = n }`. -/
def withMaxRetries {ε : Type} (n : Int) : Retrier ε → Retrier ε :=
  fun r => { r with MaxRetries := n }

/-- An option `func(r *Retrier) { r.BaseDelay = d }`. -/
def withBaseDelay {ε : Type} (d : Duration) : Retrier ε → Retrier ε :=
  fun r => { r with BaseDelay := d }

/-- An option `func(r *Retrier) { r.ShouldRetry = p }`. -/
def withShouldRetry {ε : Type} (p : ε → Bool) : Retrier ε → Retrier ε :=
  fun r => { r with ShouldRetry := p }

/-- Modelled from the spec: the function `calculateDelayBinary` named on line 31 of retry.go
is not part of retry.go. Section 4.2 of the spec: the delay "grows geometrically with
`attempt` (e.g., `base * 2^attempt`), clamped at `max`", and an implementation must "detect
overflow of the exponentiation and substitute `max` directly". A `time.Duration` is a
64-bit signed integer, so the product overflows from `2^63` on. -/
def calculateDelayBinary (attempt : Nat) (base max : Duration) : Duration :=
  if 2 ^ 63 ≤ base * 2 ^ attempt then max else min (base * 2 ^ attempt) max

/-! ## The effects of a run as the specification describes them -/

/-- Effects around retry number `i ≥ 1` as described: the delay `CalculateDelay(i-1,
BaseDelay, MaxDelay)` is computed, `Will retry in %s` is logged with it immediately before
the sleep, then `Retrying attempt %d` is logged with `i` immediately before the next
invocation. -/
def retryRound {ε : Type} (r : Retrier ε) (i : Nat) : List Event :=
  let d := r.CalculateDelay (i - 1) r.BaseDelay r.MaxDelay
  [Event.calculateDelay (i - 1) r.BaseDelay r.MaxDelay,
   Event.log "Will retry in %s" (.duration d),
   Event.sleep d,
   Event.log "Retrying attempt %d" (.int i),
   Event.call]

/-- The described effects of the retries `i, i+1, .., i+m-1`. -/
def describedRounds {ε : Type} (r : Retrier ε) : Nat → Nat → List Event
  | _, 0 => []
  | i, m + 1 => retryRound r i ++ describedRounds r (i + 1) m

/-- The described effects of a run with `n` invocations: the first invocation, with nothing
logged before it, then the retries `1 .. n-1`, with nothing logged after the last
invocation. -/
def describedTrace {ε : Type} (r : Retrier ε) (n : Nat) : List Event :=
  Event.call :: describedRounds r 1 (n - 1)

/-! ## Arithmetic of `int` -/

theorem wrapInt_zero (sz : IntSize) : wrapInt sz 0 = 0 := by
  cases sz <;> simp [wrapInt, IntSize.half, IntSize.modulus, IntSize.bits]

theorem wrapInt_of_isInt (sz : IntSize) (x : Int) (h : IsInt sz x) : wrapInt sz x = x := by
  cases sz <;> simp [wrapInt, IsInt, IntSize.half, IntSize.modulus, IntSize.bits] at * <;> omega

theorem isInt_wrapInt (sz : IntSize) (x : Int) : IsInt sz (wrapInt sz x) := by
  cases sz <;> simp [wrapInt, IsInt, IntSize.half, IntSize.modulus, IntSize.bits] <;> omega

theorem wrapInt_succ (sz : IntSize) (x : Int) :
    wrapInt sz (wrapInt sz x + 1) = wrapInt sz (x + 1) := by
  cases sz <;> simp [wrapInt, IntSize.half, IntSize.modulus, IntSize.bits] <;> omega

theorem toUint_of_nonneg_isInt (sz : IntSize) (i : Nat) (h : IsInt sz i) :
    toUint sz i = i := by
  cases sz <;> simp [toUint, IsInt, IntSize.half, IntSize.modulus, IntSize.bits] at * <;> omega

theorem wrapInt_pred_modulus (sz : IntSize) : wrapInt sz (sz.modulus - 1) = -1 := by
  cases sz <;> simp [wrapInt, IntSize.half, IntSize.modulus, IntSize.bits]

theorem wrapInt_ne_neg_one (sz : IntSize) (i : Nat) (h : (i : Int) < sz.modulus - 1) :
    wrapInt sz i ≠ -1 := by
  cases sz <;> simp [wrapInt, IntSize.half, IntSize.modulus, IntSize.bits] at * <;> omega

/-! ## Observations on the traces of the loop -/

theorem invocations_append (t u : List Event) :
    invocations (t ++ u) = invocations t + invocations u := by
  simp [invocations]

theorem sleeps_append (t u : List Event) : sleeps (t ++ u) = sleeps t ++ sleeps u := by
  induction t with
  | nil => rfl
  | cons e t ih => cases e <;> simp [sleeps, ih]

theorem delayCalls_append (t u : List Event) :
    delayCalls (t ++ u) = delayCalls t ++ delayCalls u := by
  induction t with
  | nil => rfl
  | cons e t ih => cases e <;> simp [delayCalls, ih]

theorem logged_append (t u : List Event) : logged (t ++ u) = logged t ++ logged u := by
  induction t with
  | nil => rfl
  | cons e t ih => cases e <;> simp [logged, ih]

theorem invocations_attemptEvents (count : Int) : invocations (attemptEvents count) = 1 := by
  unfold attemptEvents invocations
  split <;> simp

theorem sleeps_attemptEvents (count : Int) : sleeps (attemptEvents count) = [] := by
  unfold attemptEvents
  split <;> simp [sleeps]

theorem delayCalls_attemptEvents (count : Int) : delayCalls (attemptEvents count) = [] := by
  unfold attemptEvents
  split <;> simp [delayCalls]

theorem invocations_backoffEvents {ε : Type} (sz : IntSize) (r : Retrier ε) (count : Int) :
    invocations (backoffEvents sz r count) = 0 := by
  simp [backoffEvents, invocations]

theorem sleeps_backoffEvents {ε : Type} (sz : IntSize) (r : Retrier ε) (count : Int) :
    sleeps (backoffEvents sz r count)
      = [r.CalculateDelay (toUint sz count) r.BaseDelay r.MaxDelay] := by
  simp [backoffEvents, sleeps]

theorem attemptEvents_getLast (count : Int) :
    (attemptEvents count).getLast? = some Event.call := by
  unfold attemptEvents
  split <;> simp

theorem invocations_retryEvents {ε : Type} (sz : IntSize) (r : Retrier ε) (j : Nat) :
    ∀ a : Nat, invocations (retryEvents sz r a j) = j := by
  induction j with
  | zero => intro a; rfl
  | succ j ih =>
    intro a
    simp only [retryEvents, invocations_append, invocations_attemptEvents,
      invocations_backoffEvents, ih]
    omega

theorem sleeps_retryEvents {ε : Type} (sz : IntSize) (r : Retrier ε) (j : Nat) :
    ∀ a : Nat, sleeps (retryEvents sz r a j)
      = (List.range j).map
          (fun i => r.CalculateDelay (toUint sz (wrapInt sz ((a + i : Nat) : Int)))
            r.BaseDelay r.MaxDelay) := by
  induction j with
  | zero => intro a; rfl
  | succ j ih =>
    intro a
    simp only [retryEvents, sleeps_append, sleeps_attemptEvents, sleeps_backoffEvents, ih,
      List.range_succ_eq_map, List.map_cons, List.map_map, List.nil_append,
      List.singleton_append, Nat.add_zero]
    congr 1
    apply List.map_congr_left
    intro i _
    simp only [Function.comp_apply]
    congr 4
    omega

/-! ## The loop -/

theorem outcomeAt_zero {σ α ε : Type} (fn : Operation σ α ε) (s : σ) :
    outcomeAt fn s 0 = (fn s).1 := rfl

theorem outcomeAt_succ {σ α ε : Type} (fn : Operation σ α ε) (s : σ) (i : Nat) :
    outcomeAt fn s (i + 1) = outcomeAt fn (fn s).2 i := rfl

theorem stateAfter_succ_last {σ α ε : Type} (fn : Operation σ α ε) (i : Nat) :
    ∀ s : σ, stateAfter fn s (i + 1) = (fn (stateAfter fn s i)).2 := by
  induction i with
  | zero => intro s; rfl
  | succ i ih => intro s; exact ih (fn s).2

theorem retryLoop_success {σ α ε : Type} [GoError ε] (sz : IntSize) (r : Retrier ε)
    (fn : Operation σ α ε) (fuel : Nat) (s : σ) (count : Int)
    (h : (fn s).1.err = none) :
    retryLoop sz r fn (fuel + 1) s count
      = some ⟨(fn s).1.value, none, (fn s).2, attemptEvents count⟩ := by
  simp [retryLoop, h]

theorem retryLoop_abort {σ α ε : Type} [GoError ε] (sz : IntSize) (r : Retrier ε)
    (fn : Operation σ α ε) (fuel : Nat) (s : σ) (count : Int) (e : ε)
    (h : (fn s).1.err = some e) (hsr : r.ShouldRetry e = false) :
    retryLoop sz r fn (fuel + 1) s count
      = some ⟨none, some (abortMessage (GoError.Error e)), (fn s).2, attemptEvents count⟩ := by
  simp [retryLoop, h, hsr]

theorem retryLoop_limit {σ α ε : Type} [GoError ε] (sz : IntSize) (r : Retrier ε)
    (fn : Operation σ α ε) (fuel : Nat) (s : σ) (count : Int) (e : ε)
    (h : (fn s).1.err = some e) (hsr : r.ShouldRetry e = true) (hc : count = r.MaxRetries) :
    retryLoop sz r fn (fuel + 1) s count
      = some ⟨none, some (limitMessage r.MaxRetries (GoError.Error e)), (fn s).2,
          attemptEvents count⟩ := by
  simp [retryLoop, h, hsr, hc]

theorem retryLoop_retry {σ α ε : Type} [GoError ε] (sz : IntSize) (r : Retrier ε)
    (fn : Operation σ α ε) (fuel : Nat) (s : σ) (count : Int) (e : ε)
    (h : (fn s).1.err = some e) (hsr : r.ShouldRetry e = true) (hc : count ≠ r.MaxRetries) :
    retryLoop sz r fn (fuel + 1) s count
      = (retryLoop sz r fn fuel (fn s).2 (wrapInt sz (count + 1))).map
          (Result.after (attemptEvents count ++ backoffEvents sz r count)) := by
  simp [retryLoop, h, hsr, hc]

theorem Result.after_after {σ α : Type} (t u : List Event) (res : Result σ α) :
    Result.after t (Result.after u res) = Result.after (t ++ u) res := by
  simp [Result.after]

/-- While the iterations `a .. a+j-1` each end in a retry, the loop started at `count = a`
does those `j` iterations and goes on from `count = a + j` (wrapped). -/
theorem retryLoop_retries {σ α ε : Type} [GoError ε] (sz : IntSize) (r : Retrier ε)
    (fn : Operation σ α ε) (j : Nat) :
    ∀ (a : Nat) (s : σ) (fuel : Nat),
      (∀ i, i < j → ∃ e, (outcomeAt fn s i).err = some e ∧ r.ShouldRetry e = true ∧
        wrapInt sz ((a + i : Nat) : Int) ≠ r.MaxRetries) →
      retryLoop sz r fn (fuel + j) s (wrapInt sz a)
        = (retryLoop sz r fn fuel (stateAfter fn s j) (wrapInt sz ((a + j : Nat) : Int))).map
            (Result.after (retryEvents sz r a j)) := by
  induction j with
  | zero =>
    intro a s fuel _
    cases h : retryLoop sz r fn fuel s (wrapInt sz a) <;>
      simp [stateAfter, retryEvents, Result.after, h]
  | succ j ih =>
    intro a s fuel hretry
    obtain ⟨e, he, hsr, hc⟩ := hretry 0 (Nat.succ_pos j)
    rw [outcomeAt_zero] at he
    rw [Nat.add_zero] at hc
    have hstep := retryLoop_retry sz r fn (fuel + j) s (wrapInt sz a) e he hsr hc
    rw [← Nat.add_assoc, hstep, wrapInt_succ]
    have hih := ih (a + 1) (fn s).2 fuel (fun i hi => by
      obtain ⟨e', he', hsr', hc'⟩ := hretry (i + 1) (Nat.succ_lt_succ hi)
      refine ⟨e', he', hsr', ?_⟩
      rwa [show a + 1 + i = a + (i + 1) by omega])
    rw [show ((a : Int) + 1) = ((a + 1 : Nat) : Int) by push_cast; rfl, hih]
    rw [show a + 1 + j = a + (j + 1) by omega]
    simp only [Option.map_map, stateAfter, retryEvents]
    congr 1
    funext res
    simp [Result.after]

/-! ## One call of the wrapped callable -/

/-- Once the iterations `0 .. j-1` each end in a retry, the call continues with iteration
`j`, with `count = j` (wrapped) and the operation in its state after `j` invocations. -/
theorem callable_retries {σ α ε : Type} [GoError ε] (sz : IntSize) (r : Retrier ε)
    (fn : Operation σ α ε) (s : σ) (j fuel : Nat) (hretry : RetriesThrough sz r fn s j) :
    callable sz r fn (fuel + j) s
      = (retryLoop sz r fn fuel (stateAfter fn s j) (wrapInt sz j)).map
          (Result.after (retryEvents sz r 0 j)) := by
  have h := retryLoop_retries sz r fn j 0 s fuel (fun i hi => by
    obtain ⟨e, he, hsr, hc⟩ := hretry i hi
    exact ⟨e, he, hsr, by rwa [Nat.zero_add]⟩)
  simp only [Nat.cast_zero, wrapInt_zero, Nat.zero_add] at h
  exact h

/-- The call returns from line 50 in iteration `j`. -/
theorem callable_success_at {σ α ε : Type} [GoError ε] (sz : IntSize) (r : Retrier ε)
    (fn : Operation σ α ε) (s : σ) (j fuel : Nat) (hretry : RetriesThrough sz r fn s j)
    (hj : (outcomeAt fn s j).err = none) (hfuel : j < fuel) :
    callable sz r fn fuel s
      = some ⟨(outcomeAt fn s j).value, none, stateAfter fn s (j + 1),
          retryEvents sz r 0 j ++ attemptEvents (wrapInt sz j)⟩ := by
  obtain ⟨f, rfl⟩ : ∃ f, fuel = (f + 1) + j := ⟨fuel - j - 1, by omega⟩
  rw [callable_retries sz r fn s j (f + 1) hretry,
    retryLoop_success sz r fn f _ _ hj, stateAfter_succ_last]
  rfl

/-- The call returns from line 54 in iteration `j`. -/
theorem callable_abort_at {σ α ε : Type} [GoError ε] (sz : IntSize) (r : Retrier ε)
    (fn : Operation σ α ε) (s : σ) (j fuel : Nat) (e : ε)
    (hretry : RetriesThrough sz r fn s j)
    (hj : (outcomeAt fn s j).err = some e) (hsr : r.ShouldRetry e = false) (hfuel : j < fuel) :
    callable sz r fn fuel s
      = some ⟨none, some (abortMessage (GoError.Error e)), stateAfter fn s (j + 1),
          retryEvents sz r 0 j ++ attemptEvents (wrapInt sz j)⟩ := by
  obtain ⟨f, rfl⟩ : ∃ f, fuel = (f + 1) + j := ⟨fuel - j - 1, by omega⟩
  rw [callable_retries sz r fn s j (f + 1) hretry,
    retryLoop_abort sz r fn f _ _ e hj hsr, stateAfter_succ_last]
  rfl

/-- The call returns from line 58 in iteration `j`. -/
theorem callable_limit_at {σ α ε : Type} [GoError ε] (sz : IntSize) (r : Retrier ε)
    (fn : Operation σ α ε) (s : σ) (j fuel : Nat) (e : ε)
    (hretry : RetriesThrough sz r fn s j)
    (hj : (outcomeAt fn s j).err = some e) (hsr : r.ShouldRetry e = true)
    (hc : wrapInt sz j = r.MaxRetries) (hfuel : j < fuel) :
    callable sz r fn fuel s
      = some ⟨none, some (limitMessage r.MaxRetries (GoError.Error e)), stateAfter fn s (j + 1),
          retryEvents sz r 0 j ++ attemptEvents (wrapInt sz j)⟩ := by
  obtain ⟨f, rfl⟩ : ∃ f, fuel = (f + 1) + j := ⟨fuel - j - 1, by omega⟩
  rw [callable_retries sz r fn s j (f + 1) hretry,
    retryLoop_limit sz r fn f _ _ e hj hsr hc, stateAfter_succ_last]
  rfl

theorem invocations_run (sz : IntSize) {ε : Type} (r : Retrier ε) (j : Nat) (c : Int) :
    invocations (retryEvents sz r 0 j ++ attemptEvents c) = j + 1 := by
  rw [invocations_append, invocations_retryEvents, invocations_attemptEvents]

theorem sleeps_run (sz : IntSize) {ε : Type} (r : Retrier ε) (j : Nat) (c : Int) :
    sleeps (retryEvents sz r 0 j ++ attemptEvents c)
      = (List.range j).map
          (fun i : Nat => r.CalculateDelay (toUint sz (wrapInt sz (i : Int))) r.BaseDelay r.MaxDelay) := by
  rw [sleeps_append, sleeps_retryEvents, sleeps_attemptEvents, List.append_nil]
  simp only [Nat.zero_add]

/-- With a limit `0 ≤ MaxRetries` and a predicate that accepts the errors met, failures on
the invocations `0 .. j-1`, `j ≤ MaxRetries`, make each of these iterations end in a retry. -/
theorem retriesThrough_of_le {σ α ε : Type} (sz : IntSize) (r : Retrier ε)
    (fn : Operation σ α ε) (s : σ) (j : Nat) (hInt : IsInt sz r.MaxRetries)
    (hj : (j : Int) ≤ r.MaxRetries)
    (hall : ∀ e, r.ShouldRetry e = true)
    (hfail : ∀ i, i < j → (outcomeAt fn s i).err ≠ none) :
    RetriesThrough sz r fn s j := by
  intro i hi
  obtain ⟨e, he⟩ := Option.ne_none_iff_exists'.mp (hfail i hi)
  refine ⟨e, he, hall e, ?_⟩
  have hi' : (i : Int) < r.MaxRetries := by omega
  have hin : IsInt sz (i : Int) := by
    have h0 : (0 : Int) ≤ sz.half := by
      cases sz <;> simp [IntSize.half, IntSize.bits]
    exact ⟨by omega, lt_trans hi' hInt.2⟩
  rw [wrapInt_of_isInt sz _ hin]
  omega

theorem isInt_of_le (sz : IntSize) (i : Nat) (n : Int) (hInt : IsInt sz n)
    (hi : (i : Int) ≤ n) : IsInt sz (i : Int) := by
  have h0 : (0 : Int) ≤ sz.half := by
    cases sz <;> simp [IntSize.half, IntSize.bits]
  exact ⟨by omega, lt_of_le_of_lt hi hInt.2⟩

/-- The delays computed in the iterations `0 .. j-1` while `count` stays within `int`. -/
theorem delays_of_le (sz : IntSize) {ε : Type} (r : Retrier ε) (j : Nat)
    (hj : IsInt sz (j : Int)) :
    (List.range j).map
        (fun i : Nat => r.CalculateDelay (toUint sz (wrapInt sz (i : Int))) r.BaseDelay r.MaxDelay)
      = (List.range j).map (fun i => r.CalculateDelay i r.BaseDelay r.MaxDelay) := by
  apply List.map_congr_left
  intro i hi
  have hi' : i < j := List.mem_range.mp hi
  have hin : IsInt sz (i : Int) := isInt_of_le sz i j hj (by omega)
  rw [wrapInt_of_isInt sz _ hin, toUint_of_nonneg_isInt sz i hin]

/-! ## The claims -/

/-- C1: with `MaxRetries = N ≥ 0` and a `ShouldRetry` that is always true, an operation that
fails exactly `k ≤ N` times and then succeeds is invoked exactly `k + 1` times by one call of
the wrapped callable; the call returns the value of invocation `k + 1` with a nil error, and
it sleeps exactly `k` times, for `CalculateDelay(0, BaseDelay, MaxDelay)`, ...,
`CalculateDelay(k-1, BaseDelay, MaxDelay)` in that order. -/
theorem retry_succeeds_after_k_failures {σ α ε : Type} [GoError ε] (sz : IntSize)
    (r : Retrier ε) (fn : Operation σ α ε) (s : σ) (k fuel : Nat)
    (hInt : IsInt sz r.MaxRetries)
    (hall : ∀ e, r.ShouldRetry e = true)
    (hop : FailsThenSucceeds fn s k) (hk : (k : Int) ≤ r.MaxRetries) (hfuel : k < fuel) :
    ∃ res, callable sz r fn fuel s = some res ∧
      invocations res.trace = k + 1 ∧
      res.value = (outcomeAt fn s k).value ∧
      res.err = none ∧
      sleeps res.trace
        = (List.range k).map (fun i => r.CalculateDelay i r.BaseDelay r.MaxDelay) := by
  have hretry := retriesThrough_of_le sz r fn s k hInt hk hall hop.1
  refine ⟨_, callable_success_at sz r fn s k fuel hretry hop.2 hfuel, ?_, rfl, rfl, ?_⟩
  · exact invocations_run sz r k _
  · show sleeps (retryEvents sz r 0 k ++ attemptEvents (wrapInt sz k)) = _
    rw [sleeps_run, delays_of_le sz r k (isInt_of_le sz k _ hInt hk)]

/-- C1 at `MaxRetries = 3`, base delay 10ms and an operation that fails twice: three
invocations, the third one's value, sleeps of 10ms and 20ms. -/
theorem retry_succeeds_after_k_failures_witness :
    FailsThenSucceeds (failing 2) 0 2 ∧
    ∃ res, callable .bits64 (sampleRetrier 3) (failing 2) 3 0 = some res ∧
      invocations res.trace = 3 ∧
      res.value = some 2 ∧
      res.err = none ∧
      sleeps res.trace = [10000000, 20000000] :=
  ⟨by decide,
   retry_succeeds_after_k_failures .bits64 (sampleRetrier 3) (failing 2) 0 2 3
    (by decide) (fun _ => rfl) (by decide) (by decide) (by decide)⟩

/-- C2: with `MaxRetries = N ≥ 0` and a `ShouldRetry` that is always true, an operation that
fails on every invocation is invoked exactly `N + 1` times by one call of the wrapped
callable, which sleeps exactly `N` times and then returns the limit-exceeded error. -/
theorem retry_exhausts_after_limit {σ α ε : Type} [GoError ε] (sz : IntSize)
    (r : Retrier ε) (fn : Operation σ α ε) (s : σ) (N fuel : Nat)
    (hMax : r.MaxRetries = (N : Int)) (hInt : IsInt sz r.MaxRetries)
    (hall : ∀ e, r.ShouldRetry e = true)
    (hop : AlwaysFails fn s) (hfuel : N < fuel) :
    ∃ res e, callable sz r fn fuel s = some res ∧
      (outcomeAt fn s N).err = some e ∧
      res.err = some (limitMessage r.MaxRetries (GoError.Error e)) ∧
      invocations res.trace = N + 1 ∧
      (sleeps res.trace).length = N := by
  have hretry := retriesThrough_of_le sz r fn s N hInt (le_of_eq hMax.symm) hall
    (fun i _ => hop i)
  obtain ⟨e, he⟩ := Option.ne_none_iff_exists'.mp (hop N)
  have hc : wrapInt sz (N : Int) = r.MaxRetries := by
    rw [← hMax]; exact wrapInt_of_isInt sz _ hInt
  refine ⟨_, e, callable_limit_at sz r fn s N fuel e hretry he (hall e) hc hfuel, he, rfl,
    ?_, ?_⟩
  · exact invocations_run sz r N _
  · show (sleeps (retryEvents sz r 0 N ++ attemptEvents (wrapInt sz N))).length = N
    rw [sleeps_run, List.length_map, List.length_range]

/-- C2 at `MaxRetries = 3`: four invocations and three sleeps, then the limit-exceeded
error. -/
theorem retry_exhausts_after_limit_witness :
    ∃ res e, callable .bits64 (sampleRetrier 3) alwaysFailing 4 0 = some res ∧
      (outcomeAt alwaysFailing 0 3).err = some e ∧
      res.err = some ("Retrier exceeded max retry count of 3. Cause: " ++ e) ∧
      invocations res.trace = 4 ∧
      (sleeps res.trace).length = 3 :=
  retry_exhausts_after_limit .bits64 (sampleRetrier 3) alwaysFailing 0 3 4 rfl (by decide)
    (fun _ => rfl) (fun _ => by simp [outcomeAt, alwaysFailing]) (by decide)

/-- C3: whatever the configuration, when the first invocation returns an error that
`ShouldRetry` rejects, one call of the wrapped callable invokes the operation exactly once,
neither sleeps nor calls `CalculateDelay`, and returns the policy-abort error. -/
theorem retry_aborts_on_first_veto {σ α ε : Type} [GoError ε] (sz : IntSize)
    (r : Retrier ε) (fn : Operation σ α ε) (s : σ) (e : ε) (fuel : Nat)
    (hfirst : (outcomeAt fn s 0).err = some e) (hveto : r.ShouldRetry e = false)
    (hfuel : 0 < fuel) :
    ∃ res, callable sz r fn fuel s = some res ∧
      res.err = some (abortMessage (GoError.Error e)) ∧
      invocations res.trace = 1 ∧
      sleeps res.trace = [] ∧
      delayCalls res.trace = [] := by
  have hretry : RetriesThrough sz r fn s 0 := fun i hi => absurd hi (Nat.not_lt_zero i)
  refine ⟨_, callable_abort_at sz r fn s 0 fuel e hretry hfirst hveto hfuel, rfl, ?_, ?_, ?_⟩
  · exact invocations_run sz r 0 _
  · exact sleeps_run sz r 0 _
  · show delayCalls (retryEvents sz r 0 0 ++ attemptEvents (wrapInt sz (0 : Nat))) = []
    simp [retryEvents, delayCalls_attemptEvents]

/-- C3 with unlimited retries: the first error is rejected, the operation runs once. -/
theorem retry_aborts_on_first_veto_witness :
    ∃ res, callable .bits64 (vetoing "e0" Infinity) alwaysFailing 1 0 = some res ∧
      res.err = some "Retrier aborted due to user supplied ShouldRetry func. Cause: e0" ∧
      invocations res.trace = 1 ∧
      sleeps res.trace = [] ∧
      delayCalls res.trace = [] :=
  retry_aborts_on_first_veto .bits64 (vetoing "e0" Infinity) alwaysFailing 0 "e0" 1
    (by decide) (by decide) (by decide)

/-- C5: whatever the configuration, when the first invocation returns a nil error, one call
of the wrapped callable invokes the operation exactly once, returns that invocation's value
with a nil error, never sleeps, and gives no message to `Log`. -/
theorem retry_returns_first_success {σ α ε : Type} [GoError ε] (sz : IntSize)
    (r : Retrier ε) (fn : Operation σ α ε) (s : σ) (fuel : Nat)
    (hfirst : (outcomeAt fn s 0).err = none) (hfuel : 0 < fuel) :
    ∃ res, callable sz r fn fuel s = some res ∧
      invocations res.trace = 1 ∧
      res.value = (outcomeAt fn s 0).value ∧
      res.err = none ∧
      sleeps res.trace = [] ∧
      logged res.trace = [] := by
  have hretry : RetriesThrough sz r fn s 0 := fun i hi => absurd hi (Nat.not_lt_zero i)
  refine ⟨_, callable_success_at sz r fn s 0 fuel hretry hfirst hfuel, ?_, rfl, rfl, ?_, ?_⟩
  · exact invocations_run sz r 0 _
  · exact sleeps_run sz r 0 _
  · show logged (retryEvents sz r 0 0 ++ attemptEvents (wrapInt sz (0 : Nat))) = []
    simp [retryEvents, wrapInt_zero, attemptEvents, logged]

/-- C5 on an operation that never fails: one invocation, its value, no sleep, no log. -/
theorem retry_returns_first_success_witness :
    ∃ res, callable .bits64 (sampleRetrier 3) (failing 0) 1 0 = some res ∧
      invocations res.trace = 1 ∧
      res.value = some 0 ∧
      res.err = none ∧
      sleeps res.trace = [] ∧
      logged res.trace = [] :=
  retry_returns_first_success .bits64 (sampleRetrier 3) (failing 0) 0 1 (by decide)
    (by decide)

/-- With `count = c ≤ MaxRetries = N`, the loop returns within `N - c + 1` iterations,
whatever the operation, the predicate and the delay function do. -/
theorem retryLoop_bounded {σ α ε : Type} [GoError ε] (sz : IntSize) (r : Retrier ε)
    (fn : Operation σ α ε) (N : Nat) (hMax : r.MaxRetries = (N : Int))
    (hInt : IsInt sz r.MaxRetries) (m : Nat) :
    ∀ (c : Nat) (s : σ) (fuel : Nat), c + m = N → m < fuel →
      ∃ res, retryLoop sz r fn fuel s (c : Int) = some res ∧
        invocations res.trace ≤ m + 1 ∧ (sleeps res.trace).length ≤ m := by
  induction m with
  | zero =>
    intro c s fuel hc hfuel
    obtain ⟨f, rfl⟩ : ∃ f, fuel = f + 1 := ⟨fuel - 1, by omega⟩
    have hcN : (c : Int) = r.MaxRetries := by rw [hMax]; omega
    cases herr : (fn s).1.err with
    | none =>
      exact ⟨_, retryLoop_success sz r fn f s c herr,
        by simp [invocations_attemptEvents], by simp [sleeps_attemptEvents]⟩
    | some e =>
      cases hsr : r.ShouldRetry e with
      | false =>
        exact ⟨_, retryLoop_abort sz r fn f s c e herr hsr,
          by simp [invocations_attemptEvents], by simp [sleeps_attemptEvents]⟩
      | true =>
        exact ⟨_, retryLoop_limit sz r fn f s c e herr hsr hcN,
          by simp [invocations_attemptEvents], by simp [sleeps_attemptEvents]⟩
  | succ m ih =>
    intro c s fuel hc hfuel
    obtain ⟨f, rfl⟩ : ∃ f, fuel = f + 1 := ⟨fuel - 1, by omega⟩
    have hcN : (c : Int) ≠ r.MaxRetries := by rw [hMax]; omega
    cases herr : (fn s).1.err with
    | none =>
      exact ⟨_, retryLoop_success sz r fn f s c herr,
        by simp [invocations_attemptEvents], by simp [sleeps_attemptEvents]⟩
    | some e =>
      cases hsr : r.ShouldRetry e with
      | false =>
        exact ⟨_, retryLoop_abort sz r fn f s c e herr hsr,
          by simp [invocations_attemptEvents], by simp [sleeps_attemptEvents]⟩
      | true =>
        have hnext : wrapInt sz ((c : Int) + 1) = ((c + 1 : Nat) : Int) := by
          have hin : IsInt sz ((c + 1 : Nat) : Int) :=
            isInt_of_le sz (c + 1) _ hInt (by rw [hMax]; omega)
          rw [show ((c : Int) + 1) = ((c + 1 : Nat) : Int) by push_cast; rfl]
          exact wrapInt_of_isInt sz _ hin
        obtain ⟨res, hres, hinv, hsl⟩ := ih (c + 1) (fn s).2 f (by omega) (by omega)
        refine ⟨Result.after (attemptEvents c ++ backoffEvents sz r c) res, ?_, ?_, ?_⟩
        · rw [retryLoop_retry sz r fn f s c e herr hsr hcN, hnext, hres]
          rfl
        · show invocations ((attemptEvents c ++ backoffEvents sz r c) ++ res.trace) ≤ _
          rw [invocations_append, invocations_append, invocations_attemptEvents,
            invocations_backoffEvents]
          omega
        · show (sleeps ((attemptEvents c ++ backoffEvents sz r c) ++ res.trace)).length ≤ _
          rw [sleeps_append, sleeps_append, sleeps_attemptEvents, sleeps_backoffEvents]
          simp only [List.nil_append, List.singleton_append, List.length_cons]
          omega

/-- C6: with `MaxRetries = N ≥ 0`, whatever `ShouldRetry`, `CalculateDelay` and the
operation do, one call of the wrapped callable returns after at most `N + 1` invocations of
the operation and at most `N` sleeps. -/
theorem retry_terminates_within_limit {σ α ε : Type} [GoError ε] (sz : IntSize)
    (r : Retrier ε) (fn : Operation σ α ε) (s : σ) (N fuel : Nat)
    (hMax : r.MaxRetries = (N : Int)) (hInt : IsInt sz r.MaxRetries) (hfuel : N < fuel) :
    ∃ res, callable sz r fn fuel s = some res ∧
      invocations res.trace ≤ N + 1 ∧
      (sleeps res.trace).length ≤ N := by
  have h := retryLoop_bounded sz r fn N hMax hInt N 0 s fuel (by omega) hfuel
  simpa [callable] using h

/-- C6 at `MaxRetries = 2` with a predicate that rejects the second error: the call returns
within three invocations and two sleeps. -/
theorem retry_terminates_within_limit_witness :
    ∃ res, callable .bits32 (vetoing "e1" 2) alwaysFailing 3 0 = some res ∧
      invocations res.trace ≤ 2 + 1 ∧
      (sleeps res.trace).length ≤ 2 :=
  retry_terminates_within_limit .bits32 (vetoing "e1" 2) alwaysFailing 0 2 3 rfl (by decide)
    (by decide)

/-- C7: when a call of the wrapped callable ends because `count` has reached `MaxRetries`
(the iterations before iteration `j` each ended in a retry, invocation `j` fails with an
error `e` that `ShouldRetry` accepts, and `count` equals `MaxRetries`), the error returned
has exactly the message `Retrier exceeded max retry count of <MaxRetries in decimal>. Cause:
<message of e>`; `e` is the error of the last invocation, which for `MaxRetries = N ≥ 0`
is invocation number `N + 1`. -/
theorem retry_limit_message {σ α ε : Type} [GoError ε] (sz : IntSize)
    (r : Retrier ε) (fn : Operation σ α ε) (s : σ) (j fuel : Nat) (e : ε)
    (hretry : RetriesThrough sz r fn s j)
    (hj : (outcomeAt fn s j).err = some e) (hsr : r.ShouldRetry e = true)
    (hcount : wrapInt sz (j : Int) = r.MaxRetries) (hfuel : j < fuel) :
    ∃ res, callable sz r fn fuel s = some res ∧
      res.err = some ("Retrier exceeded max retry count of " ++ toString r.MaxRetries
        ++ ". Cause: " ++ GoError.Error e) ∧
      invocations res.trace = j + 1 ∧
      (0 ≤ r.MaxRetries → (j : Int) = r.MaxRetries) := by
  refine ⟨_, callable_limit_at sz r fn s j fuel e hretry hj hsr hcount hfuel, rfl,
    invocations_run sz r j _, ?_⟩
  intro h0
  have hInt : IsInt sz r.MaxRetries := hcount ▸ isInt_wrapInt sz j
  by_contra hne
  rcases lt_or_gt_of_ne hne with hlt | hgt
  · have hin : IsInt sz (j : Int) := isInt_of_le sz j _ hInt (le_of_lt hlt)
    rw [wrapInt_of_isInt sz _ hin] at hcount
    exact hne hcount
  · obtain ⟨n, hn⟩ := Int.eq_ofNat_of_zero_le h0
    have hnj : n < j := by omega
    obtain ⟨_, _, _, hc⟩ := hretry n hnj
    rw [← hn, wrapInt_of_isInt sz _ hInt] at hc
    exact hc rfl

/-- C7 at `MaxRetries = 2`: the message names the limit 2 and the error of the third
invocation. -/
theorem retry_limit_message_witness :
    ∃ res, callable .bits64 (sampleRetrier 2) alwaysFailing 3 0 = some res ∧
      res.err = some "Retrier exceeded max retry count of 2. Cause: e2" ∧
      invocations res.trace = 2 + 1 ∧
      ((0 : Int) ≤ 2 → ((2 : Nat) : Int) = 2) :=
  retry_limit_message .bits64 (sampleRetrier 2) alwaysFailing 0 2 3 "e2"
    (by decide) (by decide) (by decide) (by decide) (by decide)

/-- C8: when `ShouldRetry` returns false for the error `e` of invocation `j` (the first
one, `j = 0`, or a later one, reached after `j` retries), the call of the wrapped callable
stops there: the operation has been invoked `j + 1` times, the call has slept `j` times,
the invocation is the last effect, and the error returned has exactly the message `Retrier
aborted due to user supplied ShouldRetry func. Cause: <message of e>`. -/
theorem retry_abort_message {σ α ε : Type} [GoError ε] (sz : IntSize)
    (r : Retrier ε) (fn : Operation σ α ε) (s : σ) (j fuel : Nat) (e : ε)
    (hretry : RetriesThrough sz r fn s j)
    (hj : (outcomeAt fn s j).err = some e) (hveto : r.ShouldRetry e = false)
    (hfuel : j < fuel) :
    ∃ res, callable sz r fn fuel s = some res ∧
      res.err = some ("Retrier aborted due to user supplied ShouldRetry func. Cause: "
        ++ GoError.Error e) ∧
      invocations res.trace = j + 1 ∧
      (sleeps res.trace).length = j ∧
      res.trace.getLast? = some Event.call ∧
      res.state = stateAfter fn s (j + 1) := by
  refine ⟨_, callable_abort_at sz r fn s j fuel e hretry hj hveto hfuel, rfl,
    invocations_run sz r j _, ?_, ?_, rfl⟩
  · show (sleeps (retryEvents sz r 0 j ++ attemptEvents (wrapInt sz j))).length = j
    rw [sleeps_run, List.length_map, List.length_range]
  · show (retryEvents sz r 0 j ++ attemptEvents (wrapInt sz j)).getLast? = some Event.call
    rw [List.getLast?_append, attemptEvents_getLast]
    rfl

/-- C8 with the third error rejected: three invocations, two sleeps, and the message of the
third error in the policy-abort error. -/
theorem retry_abort_message_witness :
    ∃ res, callable .bits64 (vetoing "e2" 10) alwaysFailing 3 0 = some res ∧
      res.err = some "Retrier aborted due to user supplied ShouldRetry func. Cause: e2" ∧
      invocations res.trace = 2 + 1 ∧
      (sleeps res.trace).length = 2 ∧
      res.trace.getLast? = some Event.call ∧
      res.state = 3 :=
  retry_abort_message .bits64 (vetoing "e2" 10) alwaysFailing 0 2 3 "e2"
    (by decide) (by decide) (by decide) (by decide)

/-- C9: the policy-abort message built from an error `e1` differs from the limit-exceeded
message built from a limit `N` and an error `e2`, and each of the two messages contains the
message of its cause. -/
theorem abort_and_limit_messages_differ {ε : Type} [GoError ε] (e1 e2 : ε) (N : Int) :
    abortMessage (GoError.Error e1) ≠ limitMessage N (GoError.Error e2) ∧
    (∃ p q, abortMessage (GoError.Error e1) = p ++ GoError.Error e1 ++ q) ∧
    (∃ p q, limitMessage N (GoError.Error e2) = p ++ GoError.Error e2 ++ q) := by
  refine ⟨?_,
    ⟨"Retrier aborted due to user supplied ShouldRetry func. Cause: ", "", ?_⟩,
    ⟨"Retrier exceeded max retry count of " ++ toString N ++ ". Cause: ", "", ?_⟩⟩
  · intro h
    have hdata := congrArg String.data h
    simp only [abortMessage, limitMessage, String.data_append] at hdata
    have hchar := congrArg (fun l => l.get? 8) hdata
    simp at hchar
  · simp only [abortMessage, String.append_empty]
  · simp only [limitMessage, String.append_empty]

/-- A call of the loop that returns an error returns a nil value. -/
theorem retryLoop_error_value {σ α ε : Type} [GoError ε] (sz : IntSize) (r : Retrier ε)
    (fn : Operation σ α ε) (fuel : Nat) :
    ∀ (s : σ) (count : Int) (res : Result σ α),
      retryLoop sz r fn fuel s count = some res → res.err ≠ none → res.value = none := by
  induction fuel with
  | zero => intro s count res h; simp [retryLoop] at h
  | succ f ih =>
    intro s count res h herr
    cases hout : (fn s).1.err with
    | none =>
      rw [retryLoop_success sz r fn f s count hout] at h
      cases Option.some.inj h
      exact absurd rfl herr
    | some e =>
      cases hsr : r.ShouldRetry e with
      | false =>
        rw [retryLoop_abort sz r fn f s count e hout hsr] at h
        cases Option.some.inj h
        rfl
      | true =>
        by_cases hc : count = r.MaxRetries
        · rw [retryLoop_limit sz r fn f s count e hout hsr hc] at h
          cases Option.some.inj h
          rfl
        · rw [retryLoop_retry sz r fn f s count e hout hsr hc] at h
          obtain ⟨res', hres', rfl⟩ := Option.map_eq_some'.mp h
          exact ih _ _ res' hres' herr

/-- C10: when a call of the wrapped callable returns a non-nil error, the value it returns
is nil, whatever values the invocations of the operation returned. -/
theorem retry_error_has_nil_value {σ α ε : Type} [GoError ε] (sz : IntSize)
    (r : Retrier ε) (fn : Operation σ α ε) (fuel : Nat) (s : σ) (res : Result σ α)
    (hres : callable sz r fn fuel s = some res) (herr : res.err ≠ none) :
    res.value = none :=
  retryLoop_error_value sz r fn fuel s 0 res hres herr

/-- C10 on an operation whose every invocation returns a value next to its error: the call
ends with the limit-exceeded error and a nil value. -/
theorem retry_error_has_nil_value_witness :
    (outcomeAt alwaysFailing 0 1).value = some 1 ∧
    ∃ res, callable .bits64 (sampleRetrier 1) alwaysFailing 2 0 = some res ∧
      res.err ≠ none ∧ res.value = none :=
  ⟨by decide, _, rfl, by decide,
    retry_error_has_nil_value .bits64 (sampleRetrier 1) alwaysFailing 2 0 _ rfl (by decide)⟩

/-! ## Unlimited retries and the width of `count` -/

theorem stateAfter_failing (k i : Nat) : ∀ s : Nat, stateAfter (failing k) s i = s + i := by
  induction i with
  | zero => intro s; rfl
  | succ i ih =>
    intro s
    show stateAfter (failing k) (s + 1) i = s + (i + 1)
    rw [ih]; omega

theorem outcomeAt_failing (k i : Nat) :
    outcomeAt (failing k) 0 i = if i < k then ⟨none, some "boom"⟩ else ⟨some i, none⟩ := by
  simp [outcomeAt, stateAfter_failing, failing]

theorem failing_failsThenSucceeds (k : Nat) : FailsThenSucceeds (failing k) 0 k := by
  constructor
  · intro i hi
    simp [outcomeAt_failing, hi]
  · simp [outcomeAt_failing]

/-- With `MaxRetries = Infinity` and a `ShouldRetry` that is always true, an operation that
fails `k` times and then succeeds, `k` below the number `2^bits` of values of `int`, is
invoked `k + 1` times; the call sleeps `k` times and returns the success. -/
theorem infinity_succeeds_below_overflow {σ α ε : Type} [GoError ε] (sz : IntSize)
    (r : Retrier ε) (fn : Operation σ α ε) (s : σ) (k fuel : Nat)
    (hMax : r.MaxRetries = Infinity) (hall : ∀ e, r.ShouldRetry e = true)
    (hop : FailsThenSucceeds fn s k) (hk : (k : Int) < sz.modulus) (hfuel : k < fuel) :
    ∃ res, callable sz r fn fuel s = some res ∧
      invocations res.trace = k + 1 ∧
      res.value = (outcomeAt fn s k).value ∧
      res.err = none ∧
      (sleeps res.trace).length = k := by
  have hretry : RetriesThrough sz r fn s k := by
    intro i hi
    obtain ⟨e, he⟩ := Option.ne_none_iff_exists'.mp (hop.1 i hi)
    refine ⟨e, he, hall e, ?_⟩
    rw [hMax]
    exact wrapInt_ne_neg_one sz i (by omega)
  refine ⟨_, callable_success_at sz r fn s k fuel hretry hop.2 hfuel,
    invocations_run sz r k _, rfl, rfl, ?_⟩
  show (sleeps (retryEvents sz r 0 k ++ attemptEvents (wrapInt sz k))).length = k
  rw [sleeps_run, List.length_map, List.length_range]

/-- With `MaxRetries = Infinity` and a `ShouldRetry` that is always true, an operation that
fails on its first `2^bits` invocations makes `count` wrap around to `-1`: the call returns
the limit-exceeded error after `2^bits` invocations. -/
theorem infinity_limit_at_overflow {σ α ε : Type} [GoError ε] (sz : IntSize)
    (r : Retrier ε) (fn : Operation σ α ε) (s : σ) (fuel : Nat)
    (hMax : r.MaxRetries = Infinity) (hall : ∀ e, r.ShouldRetry e = true)
    (hfail : ∀ i, i < 2 ^ sz.bits → (outcomeAt fn s i).err ≠ none)
    (hfuel : 2 ^ sz.bits ≤ fuel) :
    ∃ res e, callable sz r fn fuel s = some res ∧
      (outcomeAt fn s (2 ^ sz.bits - 1)).err = some e ∧
      res.err = some (limitMessage Infinity (GoError.Error e)) ∧
      res.value = none ∧
      invocations res.trace = 2 ^ sz.bits := by
  have hpos : 0 < 2 ^ sz.bits := Nat.two_pow_pos _
  have hcast : ((2 ^ sz.bits - 1 : Nat) : Int) = sz.modulus - 1 := by
    cases sz <;> simp [IntSize.modulus, IntSize.bits]
  have hretry : RetriesThrough sz r fn s (2 ^ sz.bits - 1) := by
    intro i hi
    obtain ⟨e, he⟩ := Option.ne_none_iff_exists'.mp (hfail i (by omega))
    refine ⟨e, he, hall e, ?_⟩
    rw [hMax]
    exact wrapInt_ne_neg_one sz i (by omega)
  obtain ⟨e, he⟩ := Option.ne_none_iff_exists'.mp (hfail (2 ^ sz.bits - 1) (by omega))
  have hc : wrapInt sz ((2 ^ sz.bits - 1 : Nat) : Int) = r.MaxRetries := by
    rw [hcast, hMax]; exact wrapInt_pred_modulus sz
  have hrun := callable_limit_at sz r fn s (2 ^ sz.bits - 1) fuel e hretry he (hall e) hc
    (by omega)
  rw [hMax] at hrun
  refine ⟨_, e, hrun, he, rfl, rfl, ?_⟩
  show invocations (retryEvents sz r 0 (2 ^ sz.bits - 1) ++ attemptEvents _) = _
  rw [invocations_run]
  omega

/-- C4, evaluated where it fails: with `MaxRetries = Infinity` and a `ShouldRetry` that is
always true, an operation that fails exactly `2^32` times and then succeeds, run where `int`
has 32 bits, is invoked `2^32` times, not `2^32 + 1` times, and the call returns the
limit-exceeded error with a nil value; likewise with `2^64` where `int` has 64 bits. -/
theorem infinity_exhausted_after_overflow :
    (FailsThenSucceeds (failing (2 ^ 32)) 0 (2 ^ 32) ∧
      ∃ res, callable .bits32 (sampleRetrier Infinity) (failing (2 ^ 32)) (2 ^ 32) 0 = some res ∧
        res.err = some "Retrier exceeded max retry count of -1. Cause: boom" ∧
        res.value = none ∧
        invocations res.trace = 2 ^ 32) ∧
    (FailsThenSucceeds (failing (2 ^ 64)) 0 (2 ^ 64) ∧
      ∃ res, callable .bits64 (sampleRetrier Infinity) (failing (2 ^ 64)) (2 ^ 64) 0 = some res ∧
        res.err = some "Retrier exceeded max retry count of -1. Cause: boom" ∧
        res.value = none ∧
        invocations res.trace = 2 ^ 64) := by
  refine ⟨⟨failing_failsThenSucceeds _, ?_⟩, ⟨failing_failsThenSucceeds _, ?_⟩⟩
  · obtain ⟨res, e, hres, he, herr, hval, hinv⟩ :=
      infinity_limit_at_overflow .bits32 (sampleRetrier Infinity) (failing (2 ^ 32)) 0
        (2 ^ 32) rfl (fun _ => rfl)
        (fun i hi => by
          have hi' : i < 2 ^ 32 := hi
          rw [outcomeAt_failing, if_pos hi']
          exact Option.some_ne_none _)
        (le_refl _)
    have he' : e = "boom" := by
      have h := outcomeAt_failing (2 ^ 32) (2 ^ IntSize.bits32.bits - 1)
      rw [if_pos (by simp [IntSize.bits])] at h
      rw [h] at he
      exact (Option.some.inj he).symm
    subst he'
    exact ⟨res, hres, herr, hval, hinv⟩
  · obtain ⟨res, e, hres, he, herr, hval, hinv⟩ :=
      infinity_limit_at_overflow .bits64 (sampleRetrier Infinity) (failing (2 ^ 64)) 0
        (2 ^ 64) rfl (fun _ => rfl)
        (fun i hi => by
          have hi' : i < 2 ^ 64 := hi
          rw [outcomeAt_failing, if_pos hi']
          exact Option.some_ne_none _)
        (le_refl _)
    have he' : e = "boom" := by
      have h := outcomeAt_failing (2 ^ 64) (2 ^ IntSize.bits64.bits - 1)
      rw [if_pos (by simp [IntSize.bits])] at h
      rw [h] at he
      exact (Option.some.inj he).symm
    subst he'
    exact ⟨res, hres, herr, hval, hinv⟩

/-! ## Options and defaults -/

/-- What every option of a list leaves as it is, the whole list leaves as it is. -/
theorem applyOptions_preserves {ε β : Type} (f : Retrier ε → β)
    (options : List (Retrier ε → Retrier ε)) :
    ∀ r : Retrier ε, (∀ o ∈ options, ∀ r', f (o r') = f r') →
      f (applyOptions r options) = f r := by
  induction options with
  | nil => intro r _; rfl
  | cons o os ih =>
    intro r h
    show f (applyOptions (o r) os) = f r
    rw [ih (o r) (fun o' ho' => h o' (List.mem_cons_of_mem o ho')),
      h o (List.mem_cons_self o os)]

theorem applyOptions_append {ε : Type} (r : Retrier ε)
    (os os' : List (Retrier ε → Retrier ε)) :
    applyOptions r (os ++ os') = applyOptions (applyOptions r os) os' := by
  simp [applyOptions, List.foldl_append]

/-- C11: `Retry(fn, o1, ..., on)` runs with the configuration obtained by applying `o1`,
then `o2`, ..., then `on` to the default configuration: with no option it is the default
one, a further last option is applied to the configuration the earlier ones produce, and a
first option is applied to the default before all others. When two options set
`MaxRetries`, to `a` and then to `b`, the callable is the one for `MaxRetries = b`, and a
field that no option changes keeps its default. -/
theorem retry_applies_options_in_order {σ α ε : Type} [GoError ε] (sz : IntSize)
    (cdb : BackoffFunc) (fn : Operation σ α ε) (options : List (Retrier ε → Retrier ε)) :
    Retry sz cdb fn [] = callable sz (defaultRetrier cdb) fn ∧
    (∀ o, Retry sz cdb fn (options ++ [o])
        = callable sz (o (applyOptions (defaultRetrier cdb) options)) fn) ∧
    (∀ o, Retry sz cdb fn (o :: options)
        = callable sz (applyOptions (o (defaultRetrier cdb)) options) fn) ∧
    (∀ a b, Retry sz cdb fn (options ++ [withMaxRetries a, withMaxRetries b])
        = Retry sz cdb fn (options ++ [withMaxRetries b])) ∧
    (∀ b, Retry sz cdb fn (options ++ [withMaxRetries b])
        = callable sz { applyOptions (defaultRetrier cdb) options with MaxRetries := b } fn) ∧
    ((∀ o ∈ options, ∀ r, (o r).MaxRetries = r.MaxRetries) →
      (applyOptions (defaultRetrier cdb) options).MaxRetries = DefaultMaxRetries) ∧
    ((∀ o ∈ options, ∀ r, (o r).BaseDelay = r.BaseDelay) →
      (applyOptions (defaultRetrier cdb) options).BaseDelay = DefaultBaseDelay) ∧
    ((∀ o ∈ options, ∀ r, (o r).MaxDelay = r.MaxDelay) →
      (applyOptions (defaultRetrier cdb) options).MaxDelay = DefaultMaxDelay) ∧
    ((∀ o ∈ options, ∀ r, (o r).ShouldRetry = r.ShouldRetry) →
      (applyOptions (defaultRetrier cdb) options).ShouldRetry = fun _ => true) ∧
    ((∀ o ∈ options, ∀ r, (o r).CalculateDelay = r.CalculateDelay) →
      (applyOptions (defaultRetrier cdb) options).CalculateDelay = cdb) := by
  refine ⟨rfl, ?_, fun o => rfl, ?_, ?_, ?_, ?_, ?_, ?_, ?_⟩
  · intro o
    simp only [Retry, applyOptions_append]
    rfl
  · intro a b
    simp only [Retry, applyOptions_append]
    rfl
  · intro b
    simp only [Retry, applyOptions_append]
    rfl
  · exact applyOptions_preserves (fun r => r.MaxRetries) options _
  · exact applyOptions_preserves (fun r => r.BaseDelay) options _
  · exact applyOptions_preserves (fun r => r.MaxDelay) options _
  · exact applyOptions_preserves (fun r => r.ShouldRetry) options _
  · exact applyOptions_preserves (fun r => r.CalculateDelay) options _

/-- C11 on the options that set the base delay to 7ns, `MaxRetries` to 1 and then
`MaxRetries` to 3: the callable is the one obtained without the option that sets 1, and
its maximal delay is still the default. -/
theorem retry_applies_options_in_order_witness :
    Retry .bits64 calculateDelayBinary alwaysFailing
        ([withBaseDelay 7] ++ [withMaxRetries 1, withMaxRetries 3])
      = Retry .bits64 calculateDelayBinary alwaysFailing
        ([withBaseDelay 7] ++ [withMaxRetries 3]) ∧
    (applyOptions (defaultRetrier calculateDelayBinary)
        [withBaseDelay 7, withMaxRetries (1 : Int), withMaxRetries 3]
      : Retrier String).MaxDelay = DefaultMaxDelay :=
  ⟨(retry_applies_options_in_order .bits64 calculateDelayBinary alwaysFailing
      [withBaseDelay 7]).2.2.2.1 1 3,
   (retry_applies_options_in_order .bits64 calculateDelayBinary alwaysFailing
      [withBaseDelay 7, withMaxRetries 1, withMaxRetries 3]).2.2.2.2.2.2.2.1
      (fun o ho r => by
        simp only [List.mem_cons, List.mem_singleton, List.not_mem_nil, or_false] at ho
        rcases ho with rfl | rfl | rfl <;> rfl)⟩

theorem delayCalls_backoffEvents {ε : Type} (sz : IntSize) (r : Retrier ε) (count : Int) :
    delayCalls (backoffEvents sz r count) = [(toUint sz count, r.BaseDelay, r.MaxDelay)] := by
  simp [backoffEvents, delayCalls]

theorem delayCalls_retryEvents {ε : Type} (sz : IntSize) (r : Retrier ε) (j : Nat) :
    ∀ a : Nat, delayCalls (retryEvents sz r a j)
      = (List.range j).map
          (fun i => (toUint sz (wrapInt sz ((a + i : Nat) : Int)), r.BaseDelay, r.MaxDelay)) := by
  induction j with
  | zero => intro a; rfl
  | succ j ih =>
    intro a
    simp only [retryEvents, delayCalls_append, delayCalls_attemptEvents,
      delayCalls_backoffEvents, ih, List.range_succ_eq_map, List.map_cons, List.map_map,
      List.nil_append, List.singleton_append, Nat.add_zero]
    congr 1
    apply List.map_congr_left
    intro i _
    simp only [Function.comp_apply]
    congr 4
    omega

/-- The calls of `CalculateDelay` in a run of `j` retries and one more invocation, while
`count` stays within `int`. -/
theorem delayCalls_run (sz : IntSize) {ε : Type} (r : Retrier ε) (j : Nat) (c : Int)
    (hj : IsInt sz (j : Int)) :
    delayCalls (retryEvents sz r 0 j ++ attemptEvents c)
      = (List.range j).map (fun i => (i, r.BaseDelay, r.MaxDelay)) := by
  rw [delayCalls_append, delayCalls_retryEvents, delayCalls_attemptEvents, List.append_nil]
  apply List.map_congr_left
  intro i hi
  have hi' : i < j := List.mem_range.mp hi
  have hin : IsInt sz (i : Int) := isInt_of_le sz i j hj (by omega)
  rw [Nat.zero_add, wrapInt_of_isInt sz _ hin, toUint_of_nonneg_isInt sz i hin]

theorem isInt_ten (sz : IntSize) : IsInt sz 10 := by
  cases sz <;> simp [IsInt, IntSize.half, IntSize.bits]

/-- C12: with no options `Retry` runs with `MaxRetries = 10`, a base delay of 1ms, a maximal
delay of 1 minute and a `ShouldRetry` that accepts every error: an operation that fails on
every invocation is invoked exactly 11 times, the delay function is called with
`(i, 1ms, 1min)` for `i = 0, ..., 9` in that order, and the error returned is the
limit-exceeded error naming the limit 10. -/
theorem retry_defaults {σ α ε : Type} [GoError ε] (sz : IntSize) (cdb : BackoffFunc)
    (fn : Operation σ α ε) (s : σ) (fuel : Nat)
    (hop : AlwaysFails fn s) (hfuel : 10 < fuel) :
    ∃ res e, Retry sz cdb fn [] fuel s = some res ∧
      invocations res.trace = 11 ∧
      delayCalls res.trace
        = (List.range 10).map (fun i => (i, (1000000 : Duration), (60000000000 : Duration))) ∧
      sleeps res.trace = (List.range 10).map (fun i => cdb i 1000000 60000000000) ∧
      (outcomeAt fn s 10).err = some e ∧
      res.err = some ("Retrier exceeded max retry count of 10. Cause: " ++ GoError.Error e) := by
  have hInt : IsInt sz (defaultRetrier cdb : Retrier ε).MaxRetries := isInt_ten sz
  have hretry := retriesThrough_of_le sz (defaultRetrier cdb) fn s 10 hInt (le_refl _)
    (fun _ => rfl) (fun i _ => hop i)
  obtain ⟨e, he⟩ := Option.ne_none_iff_exists'.mp (hop 10)
  have hc : wrapInt sz ((10 : Nat) : Int) = (defaultRetrier cdb : Retrier ε).MaxRetries :=
    wrapInt_of_isInt sz _ hInt
  refine ⟨_, e, callable_limit_at sz (defaultRetrier cdb) fn s 10 fuel e hretry he rfl hc
    hfuel, ?_, ?_, ?_, he, ?_⟩
  · exact invocations_run sz _ 10 _
  · exact delayCalls_run sz (defaultRetrier cdb) 10 _ hInt
  · show sleeps (retryEvents sz (defaultRetrier cdb) 0 10 ++ attemptEvents _) = _
    rw [sleeps_run, delays_of_le sz _ 10 hInt]
    rfl
  · show some (limitMessage 10 (GoError.Error e)) = _
    simp only [limitMessage, String.append_assoc]
    rfl

/-- C12 on an operation that always fails, where `int` has 32 bits. -/
theorem retry_defaults_witness :
    ∃ res e, Retry .bits32 calculateDelayBinary alwaysFailing [] 11 0 = some res ∧
      invocations res.trace = 11 ∧
      delayCalls res.trace
        = (List.range 10).map (fun i => (i, (1000000 : Duration), (60000000000 : Duration))) ∧
      sleeps res.trace
        = (List.range 10).map (fun i => calculateDelayBinary i 1000000 60000000000) ∧
      (outcomeAt alwaysFailing 0 10).err = some e ∧
      res.err = some ("Retrier exceeded max retry count of 10. Cause: " ++ e) :=
  retry_defaults .bits32 calculateDelayBinary alwaysFailing 0 11
    (fun _ => by simp [outcomeAt, alwaysFailing]) (by decide)

/-! ## The shape of a run -/

/-- Every run of the loop that returns is a number `j` of iterations that end in a retry,
followed by one more invocation. -/
theorem retryLoop_trace_shape {σ α ε : Type} [GoError ε] (sz : IntSize) (r : Retrier ε)
    (fn : Operation σ α ε) (fuel : Nat) :
    ∀ (a : Nat) (s : σ) (res : Result σ α),
      retryLoop sz r fn fuel s (wrapInt sz a) = some res →
      ∃ j, j < fuel ∧
        res.trace = retryEvents sz r a j ++ attemptEvents (wrapInt sz ((a + j : Nat) : Int)) ∧
        res.state = stateAfter fn s (j + 1) := by
  induction fuel with
  | zero => intro a s res h; simp [retryLoop] at h
  | succ f ih =>
    intro a s res h
    cases hout : (fn s).1.err with
    | none =>
      rw [retryLoop_success sz r fn f s _ hout] at h
      cases Option.some.inj h
      exact ⟨0, Nat.succ_pos f, rfl, rfl⟩
    | some e =>
      cases hsr : r.ShouldRetry e with
      | false =>
        rw [retryLoop_abort sz r fn f s _ e hout hsr] at h
        cases Option.some.inj h
        exact ⟨0, Nat.succ_pos f, rfl, rfl⟩
      | true =>
        by_cases hc : wrapInt sz a = r.MaxRetries
        · rw [retryLoop_limit sz r fn f s _ e hout hsr hc] at h
          cases Option.some.inj h
          exact ⟨0, Nat.succ_pos f, rfl, rfl⟩
        · rw [retryLoop_retry sz r fn f s _ e hout hsr hc, wrapInt_succ,
            show ((a : Int) + 1) = ((a + 1 : Nat) : Int) by push_cast; rfl] at h
          obtain ⟨res', hres', rfl⟩ := Option.map_eq_some'.mp h
          obtain ⟨j, hj, htr, hst⟩ := ih (a + 1) (fn s).2 res' hres'
          refine ⟨j + 1, Nat.succ_lt_succ hj, ?_, hst⟩
          show (attemptEvents (wrapInt sz a) ++ backoffEvents sz r (wrapInt sz a)) ++ res'.trace
            = _
          rw [htr, show a + 1 + j = a + (j + 1) by omega]
          simp only [retryEvents, List.append_assoc]

/-- Every call of the wrapped callable that returns is a number `j` of retries followed by
one more invocation. -/
theorem callable_trace_shape {σ α ε : Type} [GoError ε] (sz : IntSize) (r : Retrier ε)
    (fn : Operation σ α ε) (fuel : Nat) (s : σ) (res : Result σ α)
    (h : callable sz r fn fuel s = some res) :
    ∃ j, j < fuel ∧ res.trace = retryEvents sz r 0 j ++ attemptEvents (wrapInt sz j) ∧
      res.state = stateAfter fn s (j + 1) := by
  have h' : retryLoop sz r fn fuel s (wrapInt sz ((0 : Nat) : Int)) = some res := by
    rw [Nat.cast_zero, wrapInt_zero]; exact h
  obtain ⟨j, hj, htr, hst⟩ := retryLoop_trace_shape sz r fn fuel 0 s res h'
  exact ⟨j, hj, by rw [htr, Nat.zero_add], hst⟩

theorem stateAfter_add {σ α ε : Type} (fn : Operation σ α ε) (n i : Nat) :
    ∀ s : σ, stateAfter fn (stateAfter fn s n) i = stateAfter fn s (n + i) := by
  induction n with
  | zero => intro s; rw [Nat.zero_add]; rfl
  | succ n ih =>
    intro s
    rw [show n + 1 + i = (n + i) + 1 by omega]
    exact ih (fn s).2

/-- A call that returns leaves the operation in its state after the invocations made, so
that the invocations of a later call are the next ones of the operation. -/
theorem callable_state {σ α ε : Type} [GoError ε] (sz : IntSize) (r : Retrier ε)
    (fn : Operation σ α ε) (fuel : Nat) (s : σ) (res : Result σ α)
    (h : callable sz r fn fuel s = some res) (i : Nat) :
    outcomeAt fn res.state i = outcomeAt fn s (invocations res.trace + i) := by
  obtain ⟨j, _, htr, hst⟩ := callable_trace_shape sz r fn fuel s res h
  rw [htr, invocations_run, hst]
  unfold outcomeAt
  rw [stateAfter_add]

theorem toUint_zero (sz : IntSize) : toUint sz 0 = 0 := by
  cases sz <;> simp [toUint, IntSize.modulus, IntSize.bits]

/-- C13: the attempt counter belongs to one call. After a first call of the wrapped callable
that returned, in whatever way, a second call of the same callable (same configuration
`r`, the operation in the state the first call left) starts at attempt 0: it begins with an
invocation and no `Retrying attempt` log, its first delay, if any, is
`CalculateDelay(0, BaseDelay, MaxDelay)`, and it permits `MaxRetries + 1` invocations
again: never more, and exactly that many when the invocations that follow those of the
first call keep failing with errors that `ShouldRetry` accepts. -/
theorem second_call_starts_at_zero {σ α ε : Type} [GoError ε] (sz : IntSize)
    (r : Retrier ε) (fn : Operation σ α ε) (s : σ) (N fuel1 fuel2 : Nat)
    (res1 : Result σ α)
    (hMax : r.MaxRetries = (N : Int)) (hInt : IsInt sz r.MaxRetries)
    (hfirst : callable sz r fn fuel1 s = some res1) (hfuel : N < fuel2) :
    ∃ res2, callable sz r fn fuel2 res1.state = some res2 ∧
      invocations res2.trace ≤ N + 1 ∧
      res2.trace.head? = some Event.call ∧
      (∀ x ∈ (delayCalls res2.trace).head?, x = (0, r.BaseDelay, r.MaxDelay)) ∧
      (∀ d ∈ (sleeps res2.trace).head?, d = r.CalculateDelay 0 r.BaseDelay r.MaxDelay) ∧
      ((∀ i, i ≤ N → ∃ e, (outcomeAt fn s (invocations res1.trace + i)).err = some e ∧
          r.ShouldRetry e = true) →
        invocations res2.trace = N + 1) := by
  obtain ⟨res2, hres2, hinv, _⟩ :=
    retryLoop_bounded sz r fn N hMax hInt N 0 res1.state fuel2 (by omega) hfuel
  have hcall : callable sz r fn fuel2 res1.state = some res2 := by
    simpa [callable] using hres2
  obtain ⟨j, _, htr, _⟩ := callable_trace_shape sz r fn fuel2 res1.state res2 hcall
  refine ⟨res2, hcall, hinv, ?_, ?_, ?_, ?_⟩
  · rw [htr]
    cases j with
    | zero => simp [retryEvents, wrapInt_zero, attemptEvents]
    | succ j => simp [retryEvents, wrapInt_zero, attemptEvents]
  · rw [htr]
    cases j with
    | zero => simp [retryEvents, delayCalls_attemptEvents]
    | succ j =>
      simp [retryEvents, wrapInt_zero, delayCalls_append, delayCalls_attemptEvents,
        delayCalls_backoffEvents, toUint_zero]
  · rw [htr]
    cases j with
    | zero => simp [retryEvents, sleeps_attemptEvents]
    | succ j =>
      simp [retryEvents, wrapInt_zero, sleeps_append, sleeps_attemptEvents,
        sleeps_backoffEvents, toUint_zero]
  · intro hnext
    have hkeeps : ∀ i, i ≤ N →
        ∃ e, (outcomeAt fn res1.state i).err = some e ∧ r.ShouldRetry e = true := by
      intro i hi
      rw [callable_state sz r fn fuel1 s res1 hfirst i]
      exact hnext i hi
    have hretry : RetriesThrough sz r fn res1.state N := by
      intro i hi
      obtain ⟨e, he, hsr⟩ := hkeeps i (le_of_lt hi)
      refine ⟨e, he, hsr, ?_⟩
      have hin : IsInt sz (i : Int) := isInt_of_le sz i _ hInt (by rw [hMax]; omega)
      rw [wrapInt_of_isInt sz _ hin, hMax]
      omega
    obtain ⟨e, he, hsr⟩ := hkeeps N (le_refl N)
    have hc : wrapInt sz (N : Int) = r.MaxRetries := by
      rw [← hMax]; exact wrapInt_of_isInt sz _ hInt
    have hlim := callable_limit_at sz r fn res1.state N fuel2 e hretry he hsr hc hfuel
    rw [hcall] at hlim
    cases Option.some.inj hlim
    exact invocations_run sz r N _

/-- C13 with `MaxRetries = 2`: the first call is aborted at its second invocation, after one
retry; the second call of the same callable again makes three invocations, and its first
delay is the one of attempt 0, 10ms. -/
theorem second_call_starts_at_zero_witness :
    ∃ res1, callable .bits64 (vetoing "e1" 2) alwaysFailing 3 0 = some res1 ∧
      invocations res1.trace = 2 ∧
      ∃ res2, callable .bits64 (vetoing "e1" 2) alwaysFailing 3 res1.state = some res2 ∧
        invocations res2.trace ≤ 2 + 1 ∧
        res2.trace.head? = some Event.call ∧
        (∀ x ∈ (delayCalls res2.trace).head?, x = (0, 10000000, 1000000000)) ∧
        (∀ d ∈ (sleeps res2.trace).head?, d = 10000000) ∧
        ((∀ i, i ≤ 2 → ∃ e, (outcomeAt alwaysFailing 0 (invocations res1.trace + i)).err
              = some e ∧ (vetoing "e1" 2).ShouldRetry e = true) →
          invocations res2.trace = 2 + 1) :=
  ⟨_, rfl, by decide,
    second_call_starts_at_zero .bits64 (vetoing "e1" 2) alwaysFailing 0 2 3 3 _ rfl
      (by decide) rfl (by decide)⟩

/-! ## The default backoff -/

/-- C14: for every attempt number, however large, and all `0 ≤ base ≤ max`, the delay of the
default binary backoff lies in `[0, max]`, and it is at least `base`; so it is neither
negative nor small, and for `attempt = 0` it is at least `base`. -/
theorem calculateDelayBinary_bounds (attempt : Nat) (base max : Duration)
    (h0 : 0 ≤ base) (hle : base ≤ max) :
    0 ≤ calculateDelayBinary attempt base max ∧
    calculateDelayBinary attempt base max ≤ max ∧
    base ≤ calculateDelayBinary attempt base max ∧
    base ≤ calculateDelayBinary 0 base max := by
  have hpow : ∀ a : Nat, base ≤ base * 2 ^ a := by
    intro a
    have h1 : (1 : Int) ≤ 2 ^ a := one_le_pow₀ (by norm_num)
    calc base = base * 1 := (mul_one base).symm
      _ ≤ base * 2 ^ a := mul_le_mul_of_nonneg_left h1 h0
  have hbase : ∀ a : Nat, base ≤ calculateDelayBinary a base max := by
    intro a
    unfold calculateDelayBinary
    split
    · exact hle
    · exact le_min (hpow a) hle
  have hmax : calculateDelayBinary attempt base max ≤ max := by
    unfold calculateDelayBinary
    split
    · exact le_refl _
    · exact min_le_right _ _
  exact ⟨le_trans h0 (hbase attempt), hmax, hbase attempt, hbase 0⟩

/-- C14 at attempt 100, where `2^100` does not fit a 64-bit duration, with a base delay of
1ms and a maximal delay of 1 minute. -/
theorem calculateDelayBinary_bounds_witness :
    calculateDelayBinary 100 1000000 60000000000 = 60000000000 ∧
    (0 ≤ calculateDelayBinary 100 1000000 60000000000 ∧
      calculateDelayBinary 100 1000000 60000000000 ≤ 60000000000 ∧
      1000000 ≤ calculateDelayBinary 100 1000000 60000000000 ∧
      1000000 ≤ calculateDelayBinary 0 1000000 60000000000) :=
  ⟨by simp [calculateDelayBinary],
    calculateDelayBinary_bounds 100 1000000 60000000000 (by decide) (by decide)⟩

/-! ## Veto and limit -/

/-- The two messages differ at their ninth character. -/
theorem abortMessage_ne_limitMessage (c1 c2 : String) (N : Int) :
    abortMessage c1 ≠ limitMessage N c2 := by
  intro h
  have hdata := congrArg String.data h
  simp only [abortMessage, limitMessage, String.data_append] at hdata
  have hchar := congrArg (fun l => l.get? 8) hdata
  simp at hchar

/-- C15: the `ShouldRetry` check comes before the limit check. When the invocation made
with `count` equal to `MaxRetries` fails with an error that `ShouldRetry` rejects, the call
returns the policy-abort error for that error, and not a limit-exceeded error; the same
run under a `ShouldRetry` that accepts every error ends in the limit-exceeded error, so
both checks apply to that invocation and the veto decides. -/
theorem veto_precedes_limit {σ α ε : Type} [GoError ε] (sz : IntSize)
    (r : Retrier ε) (fn : Operation σ α ε) (s : σ) (j fuel : Nat) (e : ε)
    (hretry : RetriesThrough sz r fn s j)
    (hcount : wrapInt sz (j : Int) = r.MaxRetries)
    (hj : (outcomeAt fn s j).err = some e) (hveto : r.ShouldRetry e = false)
    (hfuel : j < fuel) :
    ∃ res, callable sz r fn fuel s = some res ∧
      res.err = some (abortMessage (GoError.Error e)) ∧
      (∀ cause, res.err ≠ some (limitMessage r.MaxRetries cause)) ∧
      invocations res.trace = j + 1 ∧
      ∃ res', callable sz (withShouldRetry (fun _ => true) r) fn fuel s = some res' ∧
        res'.err = some (limitMessage r.MaxRetries (GoError.Error e)) := by
  refine ⟨_, callable_abort_at sz r fn s j fuel e hretry hj hveto hfuel, rfl, ?_,
    invocations_run sz r j _, ?_⟩
  · intro cause h
    exact abortMessage_ne_limitMessage _ _ _ (Option.some.inj h)
  · have hretry' : RetriesThrough sz (withShouldRetry (fun _ => true) r) fn s j := by
      intro i hi
      obtain ⟨e', he', _, hc'⟩ := hretry i hi
      exact ⟨e', he', rfl, hc'⟩
    exact ⟨_, callable_limit_at sz (withShouldRetry (fun _ => true) r) fn s j fuel e hretry'
      hj rfl hcount hfuel, rfl⟩

/-- C15 with `MaxRetries = 0` and a first error that `ShouldRetry` rejects. -/
theorem veto_precedes_limit_witness :
    ∃ res, callable .bits64 (vetoing "e0" 0) alwaysFailing 1 0 = some res ∧
      res.err = some "Retrier aborted due to user supplied ShouldRetry func. Cause: e0" ∧
      (∀ cause, res.err ≠ some (limitMessage 0 cause)) ∧
      invocations res.trace = 0 + 1 ∧
      ∃ res', callable .bits64 (withShouldRetry (fun _ => true) (vetoing "e0" 0))
          alwaysFailing 1 0 = some res' ∧
        res'.err = some "Retrier exceeded max retry count of 0. Cause: e0" :=
  veto_precedes_limit .bits64 (vetoing "e0" 0) alwaysFailing 0 0 1 "e0"
    (by decide) (by decide) (by decide) (by decide) (by decide)

/-! ## Negative limits -/

theorem half_pos (sz : IntSize) : 0 < sz.half := by
  cases sz <;> simp [IntSize.half, IntSize.bits]

/-- With a negative `MaxRetries`, and while `count` has not left the non-negative part of
`int`, the loop does what it does with `MaxRetries = Infinity`. -/
theorem retryLoop_negative_limit {σ α ε : Type} [GoError ε] (sz : IntSize) (r : Retrier ε)
    (fn : Operation σ α ε) (hneg : r.MaxRetries < 0) (fuel : Nat) :
    ∀ (c : Int) (s : σ), 0 ≤ c → c + fuel ≤ sz.half →
      retryLoop sz r fn fuel s c = retryLoop sz (withMaxRetries Infinity r) fn fuel s c := by
  induction fuel with
  | zero => intro c s _ _; rfl
  | succ f ih =>
    intro c s h0 hle
    have hc : c ≠ r.MaxRetries := by omega
    have hc' : c ≠ (withMaxRetries Infinity r).MaxRetries := by
      show c ≠ -1
      omega
    cases hout : (fn s).1.err with
    | none =>
      rw [retryLoop_success sz r fn f s c hout, retryLoop_success sz _ fn f s c hout]
    | some e =>
      cases hsr : r.ShouldRetry e with
      | false =>
        rw [retryLoop_abort sz r fn f s c e hout hsr,
          retryLoop_abort sz (withMaxRetries Infinity r) fn f s c e hout hsr]
      | true =>
        rw [retryLoop_retry sz r fn f s c e hout hsr hc,
          retryLoop_retry sz (withMaxRetries Infinity r) fn f s c e hout hsr hc']
        cases f with
        | zero => rfl
        | succ f' =>
          have hin : IsInt sz (c + 1) := by
            have := half_pos sz
            constructor
            · omega
            · push_cast at hle; omega
          rw [wrapInt_of_isInt sz _ hin, ih (c + 1) (fn s).2 (by omega)
            (by push_cast at hle ⊢; omega)]
          rfl

/-- With a negative `MaxRetries`, failures with accepted errors on the invocations
`0 .. j-1`, `j` at most `2^(bits-1)`, make each of these iterations end in a retry. -/
theorem retriesThrough_of_negative {σ α ε : Type} (sz : IntSize) (r : Retrier ε)
    (fn : Operation σ α ε) (s : σ) (j : Nat) (hneg : r.MaxRetries < 0)
    (hj : (j : Int) ≤ sz.half) (hall : ∀ e, r.ShouldRetry e = true)
    (hfail : ∀ i, i < j → (outcomeAt fn s i).err ≠ none) :
    RetriesThrough sz r fn s j := by
  intro i hi
  obtain ⟨e, he⟩ := Option.ne_none_iff_exists'.mp (hfail i hi)
  refine ⟨e, he, hall e, ?_⟩
  have hin : IsInt sz (i : Int) := by
    have := half_pos sz
    constructor <;> omega
  rw [wrapInt_of_isInt sz _ hin]
  omega

/-- C17: with a negative `MaxRetries`, the sentinel or not, and as long as `count` does not
overflow (at most `2^(bits-1)` iterations, `count` from 0 to `2^(bits-1) - 1`), the
callable behaves exactly as with `MaxRetries = Infinity`; an operation that fails `k` times
and then succeeds is invoked `k + 1` times and its success is returned; and under an
operation that keeps failing with a `ShouldRetry` that is always true the call has not
returned, with the limit-exceeded error or otherwise, within those iterations. -/
theorem negative_limit_behaves_as_infinity {σ α ε : Type} [GoError ε] (sz : IntSize)
    (r : Retrier ε) (fn : Operation σ α ε) (s : σ) (hneg : r.MaxRetries < 0) :
    (∀ fuel : Nat, (fuel : Int) ≤ sz.half →
      callable sz r fn fuel s = callable sz (withMaxRetries Infinity r) fn fuel s) ∧
    (∀ k fuel : Nat, (k : Int) < sz.half → (∀ e, r.ShouldRetry e = true) →
      FailsThenSucceeds fn s k → k < fuel →
      ∃ res, callable sz r fn fuel s = some res ∧
        invocations res.trace = k + 1 ∧
        res.value = (outcomeAt fn s k).value ∧
        res.err = none) ∧
    (∀ fuel : Nat, (fuel : Int) ≤ sz.half → (∀ e, r.ShouldRetry e = true) →
      AlwaysFails fn s → callable sz r fn fuel s = none) := by
  refine ⟨?_, ?_, ?_⟩
  · intro fuel hfuel
    exact retryLoop_negative_limit sz r fn hneg fuel 0 s (le_refl 0) (by omega)
  · intro k fuel hk hall hop hfuel
    have hretry := retriesThrough_of_negative sz r fn s k hneg (le_of_lt hk) hall hop.1
    exact ⟨_, callable_success_at sz r fn s k fuel hretry hop.2 hfuel,
      invocations_run sz r k _, rfl, rfl⟩
  · intro fuel hfuel hall hop
    have hretry := retriesThrough_of_negative sz r fn s fuel hneg hfuel hall
      (fun i _ => hop i)
    have h := callable_retries sz r fn s fuel 0 hretry
    rw [Nat.zero_add] at h
    rw [h]
    rfl

/-- C17 at `MaxRetries = -2`: the call is the one for `Infinity`, an operation that fails
five times is invoked six times, and after four invocations of an operation that always
fails the call has not returned. -/
theorem negative_limit_behaves_as_infinity_witness :
    callable .bits32 (sampleRetrier (-2)) (failing 5) 6 0
      = callable .bits32 (withMaxRetries Infinity (sampleRetrier (-2))) (failing 5) 6 0 ∧
    (∃ res, callable .bits32 (sampleRetrier (-2)) (failing 5) 6 0 = some res ∧
      invocations res.trace = 5 + 1 ∧
      res.value = some 5 ∧
      res.err = none) ∧
    callable .bits32 (sampleRetrier (-2)) alwaysFailing 4 0 = none :=
  ⟨(negative_limit_behaves_as_infinity .bits32 (sampleRetrier (-2)) (failing 5) 0
      (by decide)).1 6 (by decide),
   (negative_limit_behaves_as_infinity .bits32 (sampleRetrier (-2)) (failing 5) 0
      (by decide)).2.1 5 6 (by decide) (fun _ => rfl) (by decide) (by decide),
   (negative_limit_behaves_as_infinity .bits32 (sampleRetrier (-2)) alwaysFailing 0
      (by decide)).2.2 4 (by decide) (fun _ => rfl)
      (fun _ => by simp [outcomeAt, alwaysFailing])⟩

/-! ## What is logged -/

theorem logged_attemptEvents_of_pos (count : Int) (h : 0 < count) :
    logged (attemptEvents count) = [("Retrying attempt %d", LogArg.int count)] := by
  simp [attemptEvents, h, logged]

theorem logged_attemptEvents_of_nonpos (count : Int) (h : count ≤ 0) :
    logged (attemptEvents count) = [] := by
  have h' : ¬ count > 0 := by omega
  simp [attemptEvents, h', logged]

theorem logged_backoffEvents {ε : Type} (sz : IntSize) (r : Retrier ε) (count : Int) :
    logged (backoffEvents sz r count)
      = [("Will retry in %s",
          LogArg.duration (r.CalculateDelay (toUint sz count) r.BaseDelay r.MaxDelay))] := by
  simp [backoffEvents, logged]

theorem retryEvents_succ_last {ε : Type} (sz : IntSize) (r : Retrier ε) (j : Nat) :
    ∀ a : Nat, retryEvents sz r a (j + 1)
      = retryEvents sz r a j
        ++ (attemptEvents (wrapInt sz ((a + j : Nat) : Int))
          ++ backoffEvents sz r (wrapInt sz ((a + j : Nat) : Int))) := by
  induction j with
  | zero => intro a; simp [retryEvents]
  | succ j ih =>
    intro a
    have h := ih (a + 1)
    rw [show a + 1 + j = a + (j + 1) by omega] at h
    show attemptEvents (wrapInt sz a) ++ backoffEvents sz r (wrapInt sz a)
        ++ retryEvents sz r (a + 1) (j + 1) = _
    rw [h]
    simp only [retryEvents, List.append_assoc]

/-- While `count` stays within the non-negative part of `int`, `j` retries from
`count = a` followed by one more invocation have the described effects. -/
theorem retryEvents_described {ε : Type} (sz : IntSize) (r : Retrier ε) (j : Nat) :
    ∀ a : Nat, ((a + j : Nat) : Int) < sz.half →
      retryEvents sz r a j ++ attemptEvents (wrapInt sz ((a + j : Nat) : Int))
        = attemptEvents (wrapInt sz a) ++ describedRounds r (a + 1) j := by
  induction j with
  | zero => intro a _; simp [retryEvents, describedRounds]
  | succ j ih =>
    intro a ha
    have hpos := half_pos sz
    have hin : IsInt sz (a : Int) := ⟨by omega, by push_cast at ha; omega⟩
    have hin1 : IsInt sz ((a + 1 : Nat) : Int) :=
      ⟨by omega, by push_cast at ha ⊢; omega⟩
    have hround : backoffEvents sz r (wrapInt sz a)
        ++ attemptEvents (wrapInt sz ((a + 1 : Nat) : Int)) = retryRound r (a + 1) := by
      rw [wrapInt_of_isInt sz _ hin, wrapInt_of_isInt sz _ hin1]
      have h1 : ((a + 1 : Nat) : Int) > 0 := by omega
      simp only [backoffEvents, attemptEvents, retryRound, toUint_of_nonneg_isInt sz a hin,
        if_pos h1, Nat.add_sub_cancel]
      rfl
    have h := ih (a + 1) (by rw [show a + 1 + j = a + (j + 1) by omega]; exact ha)
    rw [show a + 1 + j = a + (j + 1) by omega] at h
    show (attemptEvents (wrapInt sz a) ++ backoffEvents sz r (wrapInt sz a)
        ++ retryEvents sz r (a + 1) j) ++ attemptEvents (wrapInt sz ((a + (j + 1) : Nat) : Int))
      = attemptEvents (wrapInt sz a) ++ (retryRound r (a + 1) ++ describedRounds r (a + 1 + 1) j)
    rw [List.append_assoc, h, ← hround]
    simp only [List.append_assoc]

theorem logged_describedRounds {ε : Type} (r : Retrier ε) (m : Nat) :
    ∀ i : Nat, (logged (describedRounds r i m)).length = 2 * m := by
  induction m with
  | zero => intro i; rfl
  | succ m ih =>
    intro i
    simp only [describedRounds, logged_append, List.length_append, ih]
    simp only [retryRound, logged, List.length_cons, List.length_nil]
    omega

/-- A run with `n` invocations, `n` at most `2^(bits-1)` so that `count` stays within the
non-negative part of `int`, has exactly the described effects, with `2 * (n - 1)` calls of
`Log`. -/
theorem trace_described_below_overflow {σ α ε : Type} [GoError ε] (sz : IntSize)
    (r : Retrier ε) (fn : Operation σ α ε) (fuel : Nat) (s : σ) (res : Result σ α)
    (hres : callable sz r fn fuel s = some res)
    (hn : (invocations res.trace : Int) ≤ sz.half) :
    res.trace = describedTrace r (invocations res.trace) ∧
    (logged res.trace).length = 2 * (invocations res.trace - 1) := by
  obtain ⟨j, _, htr, _⟩ := callable_trace_shape sz r fn fuel s res hres
  have hinv : invocations res.trace = j + 1 := by rw [htr]; exact invocations_run sz r j _
  rw [hinv] at hn ⊢
  have hshape := retryEvents_described sz r j 0 (by rw [Nat.zero_add]; push_cast at hn; omega)
  simp only [Nat.zero_add, Nat.cast_zero, wrapInt_zero] at hshape
  have htrace : res.trace = describedTrace r (j + 1) := by
    rw [htr, hshape]
    simp [describedTrace, attemptEvents]
  refine ⟨htrace, ?_⟩
  rw [htrace]
  show (logged (describedRounds r 1 (j + 1 - 1))).length = _
  rw [logged_describedRounds]

theorem wrapInt_half (sz : IntSize) : wrapInt sz sz.half = -sz.half := by
  cases sz <;> simp [wrapInt, IntSize.half, IntSize.modulus, IntSize.bits]

/-- With a negative `MaxRetries` and a `ShouldRetry` that is always true, an operation that
fails `2^(bits-1)` times and then succeeds makes `count` wrap around to `-2^(bits-1)`
before its last invocation, which the test `count > 0` of line 43 then takes for a first
attempt: the run has `n = 2^(bits-1) + 1` invocations and `2 * (n - 1) - 1` calls of `Log`. -/
theorem log_count_at_overflow {σ α ε : Type} [GoError ε] (sz : IntSize)
    (r : Retrier ε) (fn : Operation σ α ε) (s : σ) (H fuel : Nat)
    (hH : (H : Int) = sz.half) (hneg : r.MaxRetries < 0)
    (hall : ∀ e, r.ShouldRetry e = true)
    (hop : FailsThenSucceeds fn s H) (hfuel : H < fuel) :
    ∃ res, callable sz r fn fuel s = some res ∧
      res.err = none ∧
      invocations res.trace = H + 1 ∧
      (logged res.trace).length = 2 * H - 1 := by
  have hpos := half_pos sz
  obtain ⟨J, rfl⟩ : ∃ J, H = J + 1 := ⟨H - 1, by omega⟩
  have hretry := retriesThrough_of_negative sz r fn s (J + 1) hneg (le_of_eq hH) hall hop.1
  refine ⟨_, callable_success_at sz r fn s (J + 1) fuel hretry hop.2 hfuel, rfl,
    invocations_run sz r (J + 1) _, ?_⟩
  show (logged (retryEvents sz r 0 (J + 1) ++ attemptEvents (wrapInt sz ((J + 1 : Nat) : Int)))
    ).length = _
  have hJ : ((0 + J : Nat) : Int) < sz.half := by push_cast at hH ⊢; omega
  have hfront := retryEvents_described sz r J 0 hJ
  rw [retryEvents_succ_last, ← List.append_assoc (retryEvents sz r 0 J), hfront, hH,
    wrapInt_half]
  simp only [logged_append, List.length_append, logged_backoffEvents,
    logged_describedRounds, Nat.cast_zero, wrapInt_zero,
    logged_attemptEvents_of_nonpos 0 (le_refl 0),
    logged_attemptEvents_of_nonpos (-sz.half) (by omega), List.length_nil,
    List.length_singleton]
  omega

/-- C16, evaluated where it fails: with `MaxRetries = Infinity`, where `int` has 32 bits, an
operation that fails `2^31` times and then succeeds is invoked `n = 2^31 + 1` times, and
`Log` is called `2 * (n - 1) - 1` times, not `2 * (n - 1)` times: before the last invocation
`count` is `-2^31` and `Retrying attempt` is not logged. Likewise with `2^63` where `int`
has 64 bits. -/
theorem retrying_log_skipped_after_overflow :
    (FailsThenSucceeds (failing (2 ^ 31)) 0 (2 ^ 31) ∧
      ∃ res, callable .bits32 (sampleRetrier Infinity) (failing (2 ^ 31)) (2 ^ 31 + 1) 0
          = some res ∧
        res.err = none ∧
        invocations res.trace = 2 ^ 31 + 1 ∧
        (logged res.trace).length = 2 * (invocations res.trace - 1) - 1) ∧
    (FailsThenSucceeds (failing (2 ^ 63)) 0 (2 ^ 63) ∧
      ∃ res, callable .bits64 (sampleRetrier Infinity) (failing (2 ^ 63)) (2 ^ 63 + 1) 0
          = some res ∧
        res.err = none ∧
        invocations res.trace = 2 ^ 63 + 1 ∧
        (logged res.trace).length = 2 * (invocations res.trace - 1) - 1) := by
  refine ⟨⟨failing_failsThenSucceeds _, ?_⟩, ⟨failing_failsThenSucceeds _, ?_⟩⟩
  · obtain ⟨res, hres, herr, hinv, hlog⟩ :=
      log_count_at_overflow .bits32 (sampleRetrier Infinity) (failing (2 ^ 31)) 0
        (2 ^ 31) (2 ^ 31 + 1) (by simp [IntSize.half, IntSize.bits]) (by decide)
        (fun _ => rfl) (failing_failsThenSucceeds _) (Nat.lt_succ_self _)
    exact ⟨res, hres, herr, hinv, by rw [hinv, hlog]; rfl⟩
  · obtain ⟨res, hres, herr, hinv, hlog⟩ :=
      log_count_at_overflow .bits64 (sampleRetrier Infinity) (failing (2 ^ 63)) 0
        (2 ^ 63) (2 ^ 63 + 1) (by simp [IntSize.half, IntSize.bits]) (by decide)
        (fun _ => rfl) (failing_failsThenSucceeds _) (Nat.lt_succ_self _)
    exact ⟨res, hres, herr, hinv, by rw [hinv, hlog]; rfl⟩

end GoRetry
